import Mathlib

/-!
Verification of the nvm_malloc slab allocator against its specification.

The development shallowly embeds the C sources:
* `NvmSlab.c`   — slab with hybrid bitmap + ring-buffer free list,
* `NvmSpaceManager.c` — address-ordered free-segment list with coalescing,
* `SlabHashTable.c`   — separate-chaining offset→slab index,
* `NvmAllocator.c`    — two-level allocator glue (both source variants of
  `nvm_free_impl`).

Machine integers are modelled as `Nat` (the C counters are `uint32_t`/
`uint64_t` and never approach their bounds on the verified paths); the
per-slab bitmap (a packed bit array indexed by block index) is modelled as
the `Finset Nat` of set bit positions, with `SET_BIT`/`CLEAR_BIT`/
`IS_BIT_SET` becoming `insert`/`erase`/membership and `popcount` becoming
`Finset.card`.  Fallible C functions returning `-1`/`NULL` are modelled
with `Option`.
-/

set_option maxRecDepth 10000

namespace NvmMalloc

/-- Constant `NVM_SLAB_SIZE` from NvmDefs.h: 2 MiB per slab. -/
def NVM_SLAB_SIZE : Nat := 2 * 1024 * 1024

/-- Constant `SLAB_CACHE_SIZE` from NvmDefs.h: capacity of the per-slab ring buffer. -/
def SLAB_CACHE_SIZE : Nat := 64

/-- Constant `SLAB_CACHE_BATCH_SIZE` from NvmDefs.h: refill/drain batch. -/
def SLAB_CACHE_BATCH_SIZE : Nat := SLAB_CACHE_SIZE / 2

/-- Constant `INITIAL_HASHTABLE_CAPACITY` from NvmDefs.h. -/
def INITIAL_HASHTABLE_CAPACITY : Nat := 101

/-- Constant `NVM_START_OFFSET` from NvmDefs.h. -/
def NVM_START_OFFSET : Nat := 0

/-- The `SizeClassID` enumeration from NvmDefs.h (`SC_COUNT` is the
sentinel for oversize requests). -/
inductive SizeClassID where
  | SC_8B | SC_16B | SC_32B | SC_64B | SC_128B
  | SC_256B | SC_512B | SC_1K | SC_2K | SC_4K
  | SC_COUNT
deriving DecidableEq, Repr

open SizeClassID

/-- Function `get_block_size_from_sc_id` from NvmSlab.c (0 signals an invalid id). -/
def get_block_size_from_sc_id : SizeClassID → Nat
  | SC_8B => 8
  | SC_16B => 16
  | SC_32B => 32
  | SC_64B => 64
  | SC_128B => 128
  | SC_256B => 256
  | SC_512B => 512
  | SC_1K => 1024
  | SC_2K => 2048
  | SC_4K => 4096
  | SC_COUNT => 0

/-- The `NvmSlab` metadata record from NvmSlab.h.  The fixed
`free_block_buffer[SLAB_CACHE_SIZE]` array is a `List Nat` of length 64
(reads via `List.getD`, writes via `List.set`, both no-ops out of bounds
like the in-bounds-only C accesses); the packed bitmap is the `Finset` of
set bit positions.  The `next_in_chain` pointer is represented at the
allocator level (chains become lists of slab offsets). -/
structure NvmSlab where
  nvm_base_offset : Nat
  size_type_id : SizeClassID
  block_size : Nat
  total_block_count : Nat
  allocated_block_count : Nat
  cache_head : Nat
  cache_tail : Nat
  cache_count : Nat
  free_block_buffer : List Nat
  bitmap : Finset Nat
deriving DecidableEq

/-- Read `free_block_buffer[i]`. -/
def bufGet (l : List Nat) (i : Nat) : Nat := l.getD i 0

/-- The logical content of a ring buffer with the given head and count:
entries at positions `head, head+1, …, head+count-1` (mod 64). -/
def ringAt (buf : List Nat) (head count : Nat) : List Nat :=
  (List.range count).map (fun j => bufGet buf ((head + j) % SLAB_CACHE_SIZE))

/-- The logical content of a slab's ring-buffer cache, oldest first. -/
def ringList (s : NvmSlab) : List Nat :=
  ringAt s.free_block_buffer s.cache_head s.cache_count

/-- Function `nvm_slab_create` from NvmSlab.c: `calloc` zero-initializes every
field and the bitmap. -/
def nvm_slab_create (sc_id : SizeClassID) (nvm_base_offset : Nat) :
    Option NvmSlab :=
  let block_size := get_block_size_from_sc_id sc_id
  if block_size = 0 then none
  else some {
    nvm_base_offset := nvm_base_offset
    size_type_id := sc_id
    block_size := block_size
    total_block_count := NVM_SLAB_SIZE / block_size
    allocated_block_count := 0
    cache_head := 0
    cache_tail := 0
    cache_count := 0
    free_block_buffer := List.replicate SLAB_CACHE_SIZE 0
    bitmap := ∅ }

/-- The scan loop of `refill_cache` (NvmSlab.c): starting from bit `i`
with `filled` bits already pushed this refill, scan for clear bits,
setting each and pushing its index at the tail, until `BATCH` pushes or
end of bitmap.  The loop is structurally recursive on `fuel`, the number
of loop iterations left; callers pass `fuel = total_block_count - i`, so
exhausting the fuel coincides exactly with the C loop's `i <
total_block_count` exit.  Returns the updated slab (without the final
`cache_count += filled`) and the final `filled` count. -/
def refill_loop : Nat → NvmSlab → Nat → Nat → NvmSlab × Nat
  | 0, s, _, filled => (s, filled)
  | fuel + 1, s, i, filled =>
    if i < s.total_block_count ∧ filled < SLAB_CACHE_BATCH_SIZE then
      if i ∈ s.bitmap then
        refill_loop fuel s (i + 1) filled
      else
        refill_loop fuel { s with
          free_block_buffer := s.free_block_buffer.set s.cache_tail i
          cache_tail := (s.cache_tail + 1) % SLAB_CACHE_SIZE
          bitmap := insert i s.bitmap } (i + 1) (filled + 1)
    else (s, filled)

/-- Function `refill_cache` from NvmSlab.c. -/
def refill_cache (s : NvmSlab) : NvmSlab × Nat :=
  if s.allocated_block_count ≥ s.total_block_count then (s, 0)
  else
    let r := refill_loop s.total_block_count s 0 0
    ({ r.1 with cache_count := r.1.cache_count + r.2 }, r.2)

/-- Function `nvm_slab_alloc` from NvmSlab.c (the `NULL`-argument guard is not
representable; `none` is the `-1` "full" failure). -/
def nvm_slab_alloc (s : NvmSlab) : Option (NvmSlab × Nat) :=
  let s1 := if s.cache_count = 0 then (refill_cache s).1 else s
  if s1.cache_count = 0 then none
  else
    let block_idx := bufGet s1.free_block_buffer s1.cache_head
    some ({ s1 with
      cache_head := (s1.cache_head + 1) % SLAB_CACHE_SIZE
      cache_count := s1.cache_count - 1
      allocated_block_count := s1.allocated_block_count + 1 }, block_idx)

/-- The pop loop of `drain_cache` (NvmSlab.c): pop `n` indices FIFO from
the ring head, clearing their bitmap bits (with the defensive
`cache_count == 0` break).  Returns the updated slab and the drained
count. -/
def drain_loop : NvmSlab → Nat → NvmSlab × Nat
  | s, 0 => (s, 0)
  | s, n + 1 =>
    if s.cache_count = 0 then (s, 0)
    else
      let block_idx := bufGet s.free_block_buffer s.cache_head
      let s1 := { s with
        cache_head := (s.cache_head + 1) % SLAB_CACHE_SIZE
        bitmap := s.bitmap.erase block_idx
        cache_count := s.cache_count - 1 }
      let r := drain_loop s1 n
      (r.1, r.2 + 1)

/-- Function `drain_cache` from NvmSlab.c: only acts above the low-water mark. -/
def drain_cache (s : NvmSlab) : NvmSlab × Nat :=
  if s.cache_count ≤ SLAB_CACHE_BATCH_SIZE then (s, 0)
  else drain_loop s (s.cache_count - SLAB_CACHE_BATCH_SIZE)

/-- Function `nvm_slab_free` from NvmSlab.c: out-of-range indices are rejected
with no state change; otherwise decrement `allocated_block_count`
(saturating), drain if the ring is full, then push the index at the
tail (its bitmap bit stays set). -/
def nvm_slab_free (s : NvmSlab) (block_idx : Nat) : NvmSlab :=
  if block_idx ≥ s.total_block_count then s
  else
    let s1 := if s.allocated_block_count > 0 then
        { s with allocated_block_count := s.allocated_block_count - 1 }
      else s
    let s2 := if s1.cache_count ≥ SLAB_CACHE_SIZE then (drain_cache s1).1 else s1
    { s2 with
      free_block_buffer := s2.free_block_buffer.set s2.cache_tail block_idx
      cache_tail := (s2.cache_tail + 1) % SLAB_CACHE_SIZE
      cache_count := s2.cache_count + 1 }

/-- Function `nvm_slab_set_bitmap_at_idx` from NvmSlab.c (the recovery
`restore_mark`): `none` is the `-1` out-of-range failure. -/
def nvm_slab_set_bitmap_at_idx (s : NvmSlab) (block_idx : Nat) :
    Option NvmSlab :=
  if block_idx ≥ s.total_block_count then none
  else if block_idx ∉ s.bitmap then
    some { s with
      bitmap := insert block_idx s.bitmap
      allocated_block_count := s.allocated_block_count + 1 }
  else some s

/-- Function `nvm_slab_is_full` from NvmSlab.c. -/
def nvm_slab_is_full (s : NvmSlab) : Bool :=
  s.allocated_block_count = s.total_block_count

/-- Function `nvm_slab_is_empty` from NvmSlab.c. -/
def nvm_slab_is_empty (s : NvmSlab) : Bool :=
  s.allocated_block_count = 0

/-- The ascending list of clear bit positions of `bm` in `[i, i+n)`:
the candidates a bitmap scan starting at `i` finds. -/
def clearList (bm : Finset Nat) (i n : Nat) : List Nat :=
  (List.range' i n).filter (fun x => decide (x ∉ bm))

/-- The exact list of indices one bitmap scan of `refill_cache` pushes,
starting at bit `i` with `filled` pushes already done: the first
`BATCH - filled` clear bits from `i` upward. -/
def refillPushed (s : NvmSlab) (i filled : Nat) : List Nat :=
  (clearList s.bitmap i (s.total_block_count - i)).take
    (SLAB_CACHE_BATCH_SIZE - filled)

/-- Well-formedness of the ring-buffer bookkeeping fields, preserved by
every slab operation. -/
def CacheWF (s : NvmSlab) : Prop :=
  s.free_block_buffer.length = SLAB_CACHE_SIZE ∧
  s.cache_head < SLAB_CACHE_SIZE ∧
  s.cache_count ≤ SLAB_CACHE_SIZE ∧
  s.cache_tail = (s.cache_head + s.cache_count) % SLAB_CACHE_SIZE

/-- The slab invariant of spec §3, relative to the set `held` of block
indices currently held by callers: the bitmap popcount splits into
caller-held plus cached blocks, the ring is duplicate-free, in range
and bit-set, and `held` is exactly the set of bit-set blocks not in
the ring. -/
def SlabInv (s : NvmSlab) (held : Finset Nat) : Prop :=
  CacheWF s ∧
  (ringList s).Nodup ∧
  (∀ i ∈ ringList s, i < s.total_block_count ∧ i ∈ s.bitmap) ∧
  s.bitmap.card = s.allocated_block_count + s.cache_count ∧
  (∀ i, i ∈ held ↔ i ∈ s.bitmap ∧ i ∉ ringList s) ∧
  s.allocated_block_count = held.card ∧
  (∀ i ∈ s.bitmap, i < s.total_block_count)

/-- Reachable slab states, paired with the set `held` of block indices
currently held by callers: a fresh slab evolved by `nvm_slab_alloc`
(the returned index becomes held), `nvm_slab_free` of a currently held
index, and `nvm_slab_set_bitmap_at_idx` (a newly set index becomes
held, recovery-style). -/
inductive SlabReach : NvmSlab → Finset Nat → Prop where
  | create (sc : SizeClassID) (off : Nat) (s : NvmSlab) :
      nvm_slab_create sc off = some s → SlabReach s ∅
  | alloc (s : NvmSlab) (held : Finset Nat) (s' : NvmSlab) (idx : Nat) :
      SlabReach s held → nvm_slab_alloc s = some (s', idx) →
      SlabReach s' (insert idx held)
  | free (s : NvmSlab) (held : Finset Nat) (idx : Nat) :
      SlabReach s held → idx ∈ held →
      SlabReach (nvm_slab_free s idx) (held.erase idx)
  | mark (s : NvmSlab) (held : Finset Nat) (idx : Nat) (s' : NvmSlab) :
      SlabReach s held → nvm_slab_set_bitmap_at_idx s idx = some s' →
      SlabReach s' (if idx ∈ s.bitmap then held else insert idx held)

/-- Test driver: perform `n` consecutive `nvm_slab_alloc` calls,
returning the final state and the returned block indices in allocation
order (stopping early on failure). -/
def slabAllocMany : NvmSlab → Nat → NvmSlab × List Nat
  | s, 0 => (s, [])
  | s, n + 1 =>
    match nvm_slab_alloc s with
    | none => (s, [])
    | some (s', i) =>
      let r := slabAllocMany s' n
      (r.1, i :: r.2)

/-- Spec §8 scenario 3 (claim C3), exactly as written: on a fresh
64-byte-class slab allocate 64 blocks, free all 64 in allocation order,
allocate one more block, and free it. -/
def drainScenario : Option NvmSlab :=
  (nvm_slab_create SC_64B 0).bind fun s0 =>
    let a := slabAllocMany s0 64
    let f := a.2.foldl nvm_slab_free a.1
    (nvm_slab_alloc f).map fun r => nvm_slab_free r.1 r.2

/-- A fresh slab of the 8-byte class (the record `nvm_slab_create SC_8B 0`
builds), used as a concrete reachable state. -/
def slabW : NvmSlab where
  nvm_base_offset := 0
  size_type_id := SC_8B
  block_size := 8
  total_block_count := NVM_SLAB_SIZE / 8
  allocated_block_count := 0
  cache_head := 0
  cache_tail := 0
  cache_count := 0
  free_block_buffer := List.replicate SLAB_CACHE_SIZE 0
  bitmap := ∅

/-- A concrete 64-byte-class slab state whose ring buffer sits exactly
at the high-water mark (`cache_count = CACHE_SIZE = 64`), caching block
indices `0..63`, with block 64 additionally held by a caller. -/
def slabFullRing : NvmSlab where
  nvm_base_offset := 0
  size_type_id := SC_64B
  block_size := 64
  total_block_count := NVM_SLAB_SIZE / 64
  allocated_block_count := 1
  cache_head := 0
  cache_tail := 0
  cache_count := SLAB_CACHE_SIZE
  free_block_buffer := List.range SLAB_CACHE_SIZE
  bitmap := Finset.range 65

/-- A `FreeSegmentNode` of NvmSpaceManager.c (without the intrusive
`prev`/`next` pointers: the address-ordered doubly-linked list is
modelled as the head→tail list of its nodes). -/
structure FreeSegment where
  nvm_offset : Nat
  size : Nat
deriving DecidableEq, Repr

/-- Function `space_manager_create` from NvmSpaceManager.c: fails when
`total_nvm_size < NVM_SLAB_SIZE`, otherwise starts from the single
segment `(nvm_start_offset, total_nvm_size)`.  (Host-memory exhaustion
of the two `malloc`s is not modelled.) -/
def space_manager_create (total_nvm_size nvm_start_offset : Nat) :
    Option (List FreeSegment) :=
  if total_nvm_size < NVM_SLAB_SIZE then none
  else some [⟨nvm_start_offset, total_nvm_size⟩]

/-- Function `space_manager_alloc_slab` from NvmSpaceManager.c: first-fit scan
head→tail; an exactly-fitting segment is unlinked, a larger one is
shrunk from its front.  Returns the `(uint64_t)-1`-or-offset result
(`Option Nat`) together with the list the walk leaves behind. -/
def space_manager_alloc_slab : List FreeSegment →
    Option Nat × List FreeSegment
  | [] => (none, [])
  | seg :: rest =>
    if seg.size ≥ NVM_SLAB_SIZE then
      if seg.size = NVM_SLAB_SIZE then (some seg.nvm_offset, rest)
      else (some seg.nvm_offset,
        ⟨seg.nvm_offset + NVM_SLAB_SIZE, seg.size - NVM_SLAB_SIZE⟩ :: rest)
    else
      let r := space_manager_alloc_slab rest
      (r.1, seg :: r.2)

/-- Function `space_manager_free_slab` from NvmSpaceManager.c: walk to the
address-sorted position (all segments with smaller offset before, the
rest after), then merge with the abutting predecessor and/or successor,
or insert a fresh `NVM_SLAB_SIZE` node. -/
def space_manager_free_slab (l : List FreeSegment) (offset_to_free : Nat) :
    List FreeSegment :=
  let before := l.takeWhile (fun seg => decide (seg.nvm_offset < offset_to_free))
  let after := l.dropWhile (fun seg => decide (seg.nvm_offset < offset_to_free))
  match before.getLast?, after with
  | some p, n :: rest =>
    if p.nvm_offset + p.size = offset_to_free ∧
        offset_to_free + NVM_SLAB_SIZE = n.nvm_offset then
      before.dropLast ++
        ⟨p.nvm_offset, p.size + NVM_SLAB_SIZE + n.size⟩ :: rest
    else if p.nvm_offset + p.size = offset_to_free then
      before.dropLast ++ ⟨p.nvm_offset, p.size + NVM_SLAB_SIZE⟩ :: after
    else if offset_to_free + NVM_SLAB_SIZE = n.nvm_offset then
      before ++ ⟨offset_to_free, NVM_SLAB_SIZE + n.size⟩ :: rest
    else before ++ ⟨offset_to_free, NVM_SLAB_SIZE⟩ :: after
  | some p, [] =>
    if p.nvm_offset + p.size = offset_to_free then
      before.dropLast ++ [⟨p.nvm_offset, p.size + NVM_SLAB_SIZE⟩]
    else before ++ [⟨offset_to_free, NVM_SLAB_SIZE⟩]
  | none, n :: rest =>
    if offset_to_free + NVM_SLAB_SIZE = n.nvm_offset then
      ⟨offset_to_free, NVM_SLAB_SIZE + n.size⟩ :: rest
    else ⟨offset_to_free, NVM_SLAB_SIZE⟩ :: after
  | none, [] => [⟨offset_to_free, NVM_SLAB_SIZE⟩]

/-- Function `space_manager_alloc_at_offset` from NvmSpaceManager.c: find the
free segment containing `[offset, offset + NVM_SLAB_SIZE)` and carve it
out (exact match, head match, tail match, or interior split).  Returns
the `0`/`-1` status (`Bool`) together with the list the walk leaves
behind. -/
def space_manager_alloc_at_offset : List FreeSegment → Nat →
    Bool × List FreeSegment
  | [], _ => (false, [])
  | seg :: rest, offset =>
    if seg.nvm_offset ≤ offset ∧
        offset + NVM_SLAB_SIZE ≤ seg.nvm_offset + seg.size then
      if seg.nvm_offset = offset ∧
          seg.nvm_offset + seg.size = offset + NVM_SLAB_SIZE then
        (true, rest)
      else if seg.nvm_offset = offset then
        (true, ⟨seg.nvm_offset + NVM_SLAB_SIZE, seg.size - NVM_SLAB_SIZE⟩ ::
          rest)
      else if seg.nvm_offset + seg.size = offset + NVM_SLAB_SIZE then
        (true, ⟨seg.nvm_offset, seg.size - NVM_SLAB_SIZE⟩ :: rest)
      else
        (true, ⟨seg.nvm_offset, offset - seg.nvm_offset⟩ ::
          ⟨offset + NVM_SLAB_SIZE,
            seg.nvm_offset + seg.size - (offset + NVM_SLAB_SIZE)⟩ :: rest)
    else
      let r := space_manager_alloc_at_offset rest offset
      (r.1, seg :: r.2)

/-- Well-formedness of a free-segment list, the invariant the space
manager maintains (spec §3): strictly increasing offsets, positive
sizes, and no two segments touching (abutting pairs are coalesced). -/
def FreeListWF : List FreeSegment → Prop
  | [] => True
  | [a] => 0 < a.size
  | a :: b :: rest =>
    0 < a.size ∧ a.nvm_offset + a.size < b.nvm_offset ∧
      FreeListWF (b :: rest)

/-- Predicate: some free segment of `l` covers byte offset `x` — the
byte is free.  Used to state what carving an extent out of the free
list means semantically. -/
def coversOffset (l : List FreeSegment) (x : Nat) : Prop :=
  ∃ seg ∈ l, seg.nvm_offset ≤ x ∧ x < seg.nvm_offset + seg.size

/-- A `SlabHashNode` chain entry of SlabHashTable.c:
`(nvm_offset, slab_ptr)`, the pointed-to slab metadata inlined. -/
abbrev SlabHashNode : Type := Nat × NvmSlab

/-- The `SlabHashTable` of SlabHashTable.c: a fixed-capacity bucket
array with separate chaining (each bucket list in chain order). -/
structure SlabHashTable where
  buckets : List (List SlabHashNode)
  capacity : Nat
  count : Nat
deriving DecidableEq

/-- Function `hash_function` from SlabHashTable.c: `(key / NVM_SLAB_SIZE) mod
capacity`. -/
def hash_function (capacity key : Nat) : Nat :=
  key / NVM_SLAB_SIZE % capacity

/-- Function `slab_hashtable_create` from SlabHashTable.c: rejects zero
capacity. -/
def slab_hashtable_create (initial_capacity : Nat) :
    Option SlabHashTable :=
  if initial_capacity = 0 then none
  else some ⟨List.replicate initial_capacity [], initial_capacity, 0⟩

/-- Function `slab_hashtable_insert` from SlabHashTable.c: duplicate keys are
rejected; new entries are head-inserted into their bucket chain. -/
def slab_hashtable_insert (t : SlabHashTable) (nvm_offset : Nat)
    (slab : NvmSlab) : Option SlabHashTable :=
  let idx := hash_function t.capacity nvm_offset
  let bucket := t.buckets.getD idx []
  if bucket.any (fun e => e.1 = nvm_offset) then none
  else some { t with
    buckets := t.buckets.set idx ((nvm_offset, slab) :: bucket)
    count := t.count + 1 }

/-- Function `slab_hashtable_lookup` from SlabHashTable.c: first match in the
bucket chain, `none` for a missing key. -/
def slab_hashtable_lookup (t : SlabHashTable) (nvm_offset : Nat) :
    Option NvmSlab :=
  ((t.buckets.getD (hash_function t.capacity nvm_offset) []).find?
    (fun e => decide (e.1 = nvm_offset))).map (fun e => e.2)

/-- Function `slab_hashtable_remove` from SlabHashTable.c: unlink the first
matching chain node and return its slab, or return `none` leaving the
table unchanged. -/
def slab_hashtable_remove (t : SlabHashTable) (nvm_offset : Nat) :
    Option NvmSlab × SlabHashTable :=
  let idx := hash_function t.capacity nvm_offset
  let bucket := t.buckets.getD idx []
  match bucket.find? (fun e => decide (e.1 = nvm_offset)) with
  | some e => (some e.2, { t with
      buckets := t.buckets.set idx
        (bucket.eraseP (fun e => decide (e.1 = nvm_offset)))
      count := t.count - 1 })
  | none => (none, t)

/-- In-place mutation of the slab object a table entry points to
(pointer aliasing collapsed to an update keyed by `nvm_offset`). -/
def slab_hashtable_update (t : SlabHashTable) (nvm_offset : Nat)
    (f : NvmSlab → NvmSlab) : SlabHashTable :=
  let idx := hash_function t.capacity nvm_offset
  let bucket := t.buckets.getD idx []
  let bucket' :=
    bucket.map (fun e => if e.1 = nvm_offset then (e.1, f e.2) else e)
  { t with buckets := t.buckets.set idx bucket' }

/-- Function `map_size_to_sc_id` from NvmAllocator.c: smallest class whose
block size covers the request; `SC_COUNT` for oversize. -/
def map_size_to_sc_id (size : Nat) : SizeClassID :=
  if size ≤ 8 then SC_8B
  else if size ≤ 16 then SC_16B
  else if size ≤ 32 then SC_32B
  else if size ≤ 64 then SC_64B
  else if size ≤ 128 then SC_128B
  else if size ≤ 256 then SC_256B
  else if size ≤ 512 then SC_512B
  else if size ≤ 1024 then SC_1K
  else if size ≤ 2048 then SC_2K
  else if size ≤ 4096 then SC_4K
  else SC_COUNT

/-- The `NvmAllocator` state of NvmAllocator.c: central heap (space
manager + slab index; the mutex is concurrency control, not state) and
the per-CPU heaps.  A per-CPU chain of `next_in_chain`-linked slabs is
modelled as the list of slab base offsets in chain order; the slab
metadata objects themselves live in the lookup table, keyed by their
base offset. -/
structure NvmAllocator where
  space_manager : List FreeSegment
  slab_lookup_table : SlabHashTable
  cpu_heaps : Nat → SizeClassID → List Nat

/-- Function `nvm_allocator_create_impl` from NvmAllocator.c (both variants):
reject a null base (not representable here), create the space manager
over `[NVM_START_OFFSET, nvm_size_bytes)` and an
`INITIAL_HASHTABLE_CAPACITY`-bucket slab index, all CPU heaps empty. -/
def nvm_allocator_create_impl (nvm_size_bytes : Nat) :
    Option NvmAllocator :=
  match space_manager_create nvm_size_bytes NVM_START_OFFSET,
      slab_hashtable_create INITIAL_HASHTABLE_CAPACITY with
  | some sm, some t => some ⟨sm, t, fun _ _ => []⟩
  | _, _ => none

/-- Function `nvm_free_impl`, the concurrent (deferred-reclaim) variant of
NvmAllocator.c: align the offset down to the slab base, look the slab
up, release the block into it — and deliberately nothing else, even
when the slab becomes empty.  The argument is the offset
`nvm_ptr - nvm_base_addr`. -/
def nvm_free_impl (a : NvmAllocator) (nvm_offset : Nat) : NvmAllocator :=
  let slab_base_offset := nvm_offset / NVM_SLAB_SIZE * NVM_SLAB_SIZE
  match slab_hashtable_lookup a.slab_lookup_table slab_base_offset with
  | none => a
  | some target_slab =>
    let block_idx :=
      (nvm_offset - target_slab.nvm_base_offset) / target_slab.block_size
    let table' :=
      slab_hashtable_update a.slab_lookup_table slab_base_offset
        (fun s => nvm_slab_free s block_idx)
    { a with slab_lookup_table := table' }

/-- Function `nvm_free_impl`, the earlier single-threaded variant of
NvmAllocator.c: after the block release, if the slab became empty it is
reclaimed — unlinked from CPU 0's chain, removed from the index, its
extent returned to the space manager, its metadata destroyed — unless
it is the sole slab of its class chain (`lists[sc] == target ∧
target->next == NULL`), which is kept. -/
def nvm_free_impl_v1 (a : NvmAllocator) (nvm_offset : Nat) : NvmAllocator :=
  let slab_base_offset := nvm_offset / NVM_SLAB_SIZE * NVM_SLAB_SIZE
  match slab_hashtable_lookup a.slab_lookup_table slab_base_offset with
  | none => a
  | some target_slab =>
    let block_idx :=
      (nvm_offset - target_slab.nvm_base_offset) / target_slab.block_size
    let slab' := nvm_slab_free target_slab block_idx
    let table1 :=
      slab_hashtable_update a.slab_lookup_table slab_base_offset
        (fun _ => slab')
    let a1 : NvmAllocator := { a with slab_lookup_table := table1 }
    if nvm_slab_is_empty slab' then
      let sc := slab'.size_type_id
      let chain := a1.cpu_heaps 0 sc
      if chain = [slab_base_offset] then a1
      else
        { a1 with
          cpu_heaps := fun cpu c =>
            if cpu = 0 ∧ c = sc then chain.erase slab_base_offset
            else a1.cpu_heaps cpu c
          slab_lookup_table :=
            (slab_hashtable_remove a1.slab_lookup_table
              slab'.nvm_base_offset).2
          space_manager :=
            space_manager_free_slab a1.space_manager slab'.nvm_base_offset }
    else a1

/-- Function `nvm_allocator_restore_allocation_impl` from NvmAllocator.c: map
the size to a class, align down to the slab base; if the base is not
indexed, carve the extent at exactly that offset, create a slab of the
class, index it (the C ignores the insert's status) and link it onto
CPU 0's chain; if it is indexed, require the class to match; finally
mark the addressed block.  Returns the new state and `true`, or the
state as mutated so far and `false` on the `-1` paths. -/
def nvm_allocator_restore_allocation_impl (a : NvmAllocator)
    (nvm_offset : Nat) (size : Nat) : NvmAllocator × Bool :=
  if size = 0 then (a, false)
  else
    let sc_id := map_size_to_sc_id size
    if sc_id = SC_COUNT then (a, false)
    else
      let slab_base_offset := nvm_offset / NVM_SLAB_SIZE * NVM_SLAB_SIZE
      match slab_hashtable_lookup a.slab_lookup_table slab_base_offset with
      | none =>
        match space_manager_alloc_at_offset a.space_manager
            slab_base_offset with
        | (false, sm') => ({ a with space_manager := sm' }, false)
        | (true, sm') =>
          match nvm_slab_create sc_id slab_base_offset with
          | none =>
            ({ a with space_manager :=
                space_manager_free_slab sm' slab_base_offset }, false)
          | some target_slab =>
            let table' :=
              match slab_hashtable_insert a.slab_lookup_table
                  slab_base_offset target_slab with
              | some t => t
              | none => a.slab_lookup_table
            let a1 : NvmAllocator :=
              { space_manager := sm'
                slab_lookup_table := table'
                cpu_heaps := fun cpu c =>
                  if cpu = 0 ∧ c = sc_id then
                    slab_base_offset :: a.cpu_heaps 0 sc_id
                  else a.cpu_heaps cpu c }
            let block_idx :=
              (nvm_offset - slab_base_offset) / target_slab.block_size
            match nvm_slab_set_bitmap_at_idx target_slab block_idx with
            | none => (a1, false)
            | some slab' =>
              let table2 :=
                slab_hashtable_update a1.slab_lookup_table slab_base_offset
                  (fun _ => slab')
              ({ a1 with slab_lookup_table := table2 }, true)
      | some target_slab =>
        if target_slab.size_type_id ≠ sc_id then (a, false)
        else
          let block_idx :=
            (nvm_offset - slab_base_offset) / target_slab.block_size
          match nvm_slab_set_bitmap_at_idx target_slab block_idx with
          | none => (a, false)
          | some slab' =>
            let table' :=
              slab_hashtable_update a.slab_lookup_table slab_base_offset
                (fun _ => slab')
            ({ a with slab_lookup_table := table' }, true)

/-- A freshly created slab index of the default capacity (the record
`slab_hashtable_create INITIAL_HASHTABLE_CAPACITY` builds). -/
def tableW : SlabHashTable where
  buckets := List.replicate INITIAL_HASHTABLE_CAPACITY []
  capacity := INITIAL_HASHTABLE_CAPACITY
  count := 0

/-- A 64-byte-class slab at base offset 0 holding exactly one block
(block 0), ring empty. -/
def slabEx : NvmSlab where
  nvm_base_offset := 0
  size_type_id := SC_64B
  block_size := 64
  total_block_count := NVM_SLAB_SIZE / 64
  allocated_block_count := 1
  cache_head := 0
  cache_tail := 0
  cache_count := 0
  free_block_buffer := List.replicate SLAB_CACHE_SIZE 0
  bitmap := {0}

/-- An empty 64-byte-class slab at base offset `NVM_SLAB_SIZE`. -/
def slabEx2 : NvmSlab where
  nvm_base_offset := NVM_SLAB_SIZE
  size_type_id := SC_64B
  block_size := 64
  total_block_count := NVM_SLAB_SIZE / 64
  allocated_block_count := 0
  cache_head := 0
  cache_tail := 0
  cache_count := 0
  free_block_buffer := List.replicate SLAB_CACHE_SIZE 0
  bitmap := ∅

/-- A concrete allocator state over a 10-slab region: two 64-byte-class
slabs (at offsets 0 and `NVM_SLAB_SIZE`) indexed and chained on CPU 0,
the rest of the region free; the slab at offset 0 holds one block. -/
def allocEx : NvmAllocator where
  space_manager := [⟨2 * NVM_SLAB_SIZE, 8 * NVM_SLAB_SIZE⟩]
  slab_lookup_table :=
    { buckets :=
        ((List.replicate INITIAL_HASHTABLE_CAPACITY
          ([] : List SlabHashNode)).set 0 [(0, slabEx)]).set 1
            [(NVM_SLAB_SIZE, slabEx2)]
      capacity := INITIAL_HASHTABLE_CAPACITY
      count := 2 }
  cpu_heaps := fun cpu sc =>
    if cpu = 0 ∧ sc = SC_64B then [NVM_SLAB_SIZE, 0] else []

/-- Spec §8 scenario 5 (claim C7): `init(base, 10·SLAB_SIZE)` followed
by `restore(base + 2·SLAB_SIZE + 64, 60)`. -/
def restoreScenario : Option (NvmAllocator × Bool) :=
  (nvm_allocator_create_impl (10 * NVM_SLAB_SIZE)).map
    (fun a => nvm_allocator_restore_allocation_impl a
      (2 * NVM_SLAB_SIZE + 64) 60)

/-! ### Ring-buffer arithmetic lemmas -/

theorem ringAt_zero (buf : List Nat) (head : Nat) : ringAt buf head 0 = [] := rfl

theorem ringAt_succ_cons (buf : List Nat) (head n : Nat) :
    ringAt buf head (n + 1) =
      bufGet buf (head % SLAB_CACHE_SIZE) :: ringAt buf (head + 1) n := by
  simp only [ringAt, List.range_succ_eq_map, List.map_cons, List.map_map,
    Nat.add_zero]
  refine congrArg₂ _ rfl ?_
  apply List.map_congr_left
  intro j _
  simp only [Function.comp_apply, Nat.succ_eq_add_one]
  ring_nf

theorem ringAt_succ_snoc (buf : List Nat) (head n : Nat) :
    ringAt buf head (n + 1) =
      ringAt buf head n ++ [bufGet buf ((head + n) % SLAB_CACHE_SIZE)] := by
  simp [ringAt, List.range_succ]

theorem ringAt_mod (buf : List Nat) (head n : Nat) :
    ringAt buf (head % SLAB_CACHE_SIZE) n = ringAt buf head n := by
  simp only [ringAt]
  apply List.map_congr_left
  intro j _
  rw [Nat.mod_add_mod]

theorem ringAt_length (buf : List Nat) (head n : Nat) :
    (ringAt buf head n).length = n := by
  simp [ringAt]

theorem ringList_length (s : NvmSlab) :
    (ringList s).length = s.cache_count :=
  ringAt_length _ _ _

/-- Writing outside the live window of the ring leaves its content
unchanged. -/
theorem ringAt_set_out (buf : List Nat) (head n p v : Nat)
    (h : ∀ j < n, (head + j) % SLAB_CACHE_SIZE ≠ p) :
    ringAt (buf.set p v) head n = ringAt buf head n := by
  simp only [ringAt]
  apply List.map_congr_left
  intro j hj
  simp only [List.mem_range] at hj
  simp only [bufGet, List.getD_eq_getElem?_getD]
  rw [List.getElem?_set_ne]
  exact fun hp => h j hj hp.symm

theorem bufGet_set_self (buf : List Nat) (p v : Nat) (hp : p < buf.length) :
    bufGet (buf.set p v) p = v := by
  simp only [bufGet, List.getD_eq_getElem?_getD]
  rw [List.getElem?_set_self hp]
  rfl

theorem ringAt_drop (n : Nat) : ∀ (buf : List Nat) (head count : Nat),
    n ≤ count →
    (ringAt buf head count).drop n = ringAt buf (head + n) (count - n) := by
  induction n with
  | zero => intro buf head count _; simp
  | succ n ih =>
    intro buf head count hn
    obtain ⟨c, rfl⟩ : ∃ c, count = c + 1 := ⟨count - 1, by omega⟩
    rw [ringAt_succ_cons, List.drop_succ_cons, ih buf (head + 1) c (by omega)]
    have h1 : head + 1 + n = head + (n + 1) := by omega
    have h2 : c - n = c + 1 - (n + 1) := by omega
    rw [h1, h2]

/-! ### `drain_loop` and `drain_cache` specifications -/

/-- Popping `n` available entries: the head advances by `n`, the count
drops by `n`, and the bits of the first `n` cached indices are
cleared. -/
theorem drain_loop_spec : ∀ (n : Nat) (s : NvmSlab), n ≤ s.cache_count →
    s.cache_head < SLAB_CACHE_SIZE →
    drain_loop s n =
      ({ s with
          cache_head := (s.cache_head + n) % SLAB_CACHE_SIZE
          cache_count := s.cache_count - n
          bitmap := s.bitmap \ ((ringList s).take n).toFinset }, n) := by
  intro n
  induction n with
  | zero =>
    intro s _ hh
    simp only [drain_loop, List.take_zero, List.toFinset_nil,
      Finset.sdiff_empty, Nat.sub_zero, Nat.add_zero, Nat.mod_eq_of_lt hh]
  | succ n ih =>
    intro s hn hh
    have hcount : ¬ s.cache_count = 0 := by omega
    obtain ⟨c, hc⟩ : ∃ c, s.cache_count = c + 1 := ⟨s.cache_count - 1, by omega⟩
    have hh1 : (s.cache_head + 1) % SLAB_CACHE_SIZE < SLAB_CACHE_SIZE :=
      Nat.mod_lt _ (by simp [SLAB_CACHE_SIZE])
    rw [drain_loop]
    simp only [hcount, if_false]
    rw [ih _ (show n ≤ s.cache_count - 1 by omega) hh1]
    have hring : ringList s = bufGet s.free_block_buffer s.cache_head ::
        ringAt s.free_block_buffer ((s.cache_head + 1) % SLAB_CACHE_SIZE)
          (s.cache_count - 1) := by
      rw [ringList, hc, ringAt_succ_cons, ringAt_mod, Nat.mod_eq_of_lt hh]
      simp
    simp only [Prod.mk.injEq, NvmSlab.mk.injEq, ringList] at *
    and_intros <;>
      first
        | trivial
        | (simp only [SLAB_CACHE_SIZE]; omega)
        | omega
        | (rw [hring, List.take_succ_cons]
           ext a
           simp only [Finset.mem_sdiff, List.toFinset_cons, Finset.mem_insert,
             Finset.mem_erase]
           tauto)

/-! ### `refill_loop` and `refill_cache` specifications -/

theorem mem_clearList {bm : Finset Nat} {i n x : Nat} :
    x ∈ clearList bm i n ↔ (i ≤ x ∧ x < i + n) ∧ x ∉ bm := by
  simp [clearList, List.mem_filter, List.mem_range'_1]

theorem clearList_nodup (bm : Finset Nat) (i n : Nat) :
    (clearList bm i n).Nodup :=
  (List.nodup_range' i n).filter _

theorem clearList_skip {bm : Finset Nat} {i : Nat} (n : Nat) (h : i ∈ bm) :
    clearList bm i (n + 1) = clearList bm (i + 1) n := by
  simp [clearList, List.range'_succ, List.filter_cons, h]

theorem clearList_push {bm : Finset Nat} {i : Nat} (n : Nat) (h : i ∉ bm) :
    clearList bm i (n + 1) = i :: clearList bm (i + 1) n := by
  simp [clearList, List.range'_succ, List.filter_cons, h]

theorem clearList_insert_low (bm : Finset Nat) (i n : Nat) :
    clearList (insert i bm) (i + 1) n = clearList bm (i + 1) n := by
  unfold clearList
  apply List.filter_congr
  intro x hx
  have h1 : i + 1 ≤ x := (List.mem_range'_1.mp hx).1
  have h2 : x ≠ i := by omega
  simp [Finset.mem_insert, h2]

/-- Full characterization of one bitmap scan (`refill_loop`) given
enough fuel: it pushes precisely the first `BATCH - filled` clear bits
at ascending positions starting from `i`, setting each pushed bit and
appending the pushed indices behind the already-pushed prefix of the
ring, and leaves every other field alone. -/
theorem refill_loop_spec : ∀ (fuel : Nat) (s : NvmSlab) (i filled : Nat),
    s.total_block_count ≤ i + fuel →
    s.cache_head < SLAB_CACHE_SIZE →
    s.free_block_buffer.length = SLAB_CACHE_SIZE →
    s.cache_count = 0 →
    s.cache_tail = (s.cache_head + filled) % SLAB_CACHE_SIZE →
    filled ≤ SLAB_CACHE_BATCH_SIZE →
    (refill_loop fuel s i filled).2 = filled + (refillPushed s i filled).length ∧
    (refill_loop fuel s i filled).1.nvm_base_offset = s.nvm_base_offset ∧
    (refill_loop fuel s i filled).1.size_type_id = s.size_type_id ∧
    (refill_loop fuel s i filled).1.block_size = s.block_size ∧
    (refill_loop fuel s i filled).1.total_block_count = s.total_block_count ∧
    (refill_loop fuel s i filled).1.allocated_block_count =
      s.allocated_block_count ∧
    (refill_loop fuel s i filled).1.cache_head = s.cache_head ∧
    (refill_loop fuel s i filled).1.cache_count = 0 ∧
    (refill_loop fuel s i filled).1.cache_tail =
      (s.cache_head + (refill_loop fuel s i filled).2) % SLAB_CACHE_SIZE ∧
    (refill_loop fuel s i filled).1.free_block_buffer.length =
      SLAB_CACHE_SIZE ∧
    (refill_loop fuel s i filled).1.bitmap =
      s.bitmap ∪ (refillPushed s i filled).toFinset ∧
    ringAt (refill_loop fuel s i filled).1.free_block_buffer s.cache_head
        (refill_loop fuel s i filled).2 =
      ringAt s.free_block_buffer s.cache_head filled ++
        refillPushed s i filled := by
  intro fuel
  induction fuel with
  | zero =>
    intro s i filled hT hh hlen hc ht hf
    have hTi : s.total_block_count - i = 0 := by omega
    have hp : refillPushed s i filled = [] := by
      simp [refillPushed, hTi, clearList]
    simp [refill_loop, hp, ht, hlen, hc]
  | succ fuel ih =>
    intro s i filled hT hh hlen hc ht hf
    by_cases hcond : i < s.total_block_count ∧ filled < SLAB_CACHE_BATCH_SIZE
    · by_cases hmem : i ∈ s.bitmap
      · -- scan skips a set bit
        have hred : refill_loop (fuel + 1) s i filled =
            refill_loop fuel s (i + 1) filled := by
          rw [refill_loop, if_pos hcond, if_pos hmem]
        have hpush : refillPushed s i filled = refillPushed s (i + 1) filled := by
          unfold refillPushed
          have hTi : s.total_block_count - i =
              (s.total_block_count - (i + 1)) + 1 := by omega
          rw [hTi, clearList_skip _ hmem]
        rw [hred, hpush]
        exact ih s (i + 1) filled (by omega) hh hlen hc ht hf
      · -- scan pushes a clear bit
        have hi : i < s.total_block_count := hcond.1
        have hfil : filled < SLAB_CACHE_BATCH_SIZE := hcond.2
        have hred : refill_loop (fuel + 1) s i filled =
            refill_loop fuel { s with
              free_block_buffer := s.free_block_buffer.set s.cache_tail i
              cache_tail := (s.cache_tail + 1) % SLAB_CACHE_SIZE
              bitmap := insert i s.bitmap } (i + 1) (filled + 1) := by
          rw [refill_loop, if_pos hcond, if_neg hmem]
        have ihh := ih { s with
              free_block_buffer := s.free_block_buffer.set s.cache_tail i
              cache_tail := (s.cache_tail + 1) % SLAB_CACHE_SIZE
              bitmap := insert i s.bitmap } (i + 1) (filled + 1)
          (show s.total_block_count ≤ i + 1 + fuel by omega)
          hh
          (show (s.free_block_buffer.set s.cache_tail i).length =
            SLAB_CACHE_SIZE by rw [List.length_set]; exact hlen)
          hc
          (show (s.cache_tail + 1) % SLAB_CACHE_SIZE =
            (s.cache_head + (filled + 1)) % SLAB_CACHE_SIZE by
            rw [ht, Nat.mod_add_mod, Nat.add_assoc])
          (show filled + 1 ≤ SLAB_CACHE_BATCH_SIZE by omega)
        have hpush : refillPushed s i filled =
            i :: refillPushed { s with
              free_block_buffer := s.free_block_buffer.set s.cache_tail i
              cache_tail := (s.cache_tail + 1) % SLAB_CACHE_SIZE
              bitmap := insert i s.bitmap } (i + 1) (filled + 1) := by
          unfold refillPushed
          dsimp only
          have hTi : s.total_block_count - i =
              (s.total_block_count - (i + 1)) + 1 := by omega
          have hBf : SLAB_CACHE_BATCH_SIZE - filled =
              (SLAB_CACHE_BATCH_SIZE - (filled + 1)) + 1 := by omega
          rw [clearList_insert_low, hTi, clearList_push _ hmem, hBf,
            List.take_succ_cons]
        obtain ⟨ih1, ih2, ih3, ih4, ih5, ih6, ih7, ih8, ih9, ih10, ih11, ih12⟩
          := ihh
        rw [hred, hpush]
        have htail_lt : s.cache_tail < s.free_block_buffer.length := by
          rw [ht, hlen]
          exact Nat.mod_lt _ (by simp [SLAB_CACHE_SIZE])
        have hget : bufGet (s.free_block_buffer.set s.cache_tail i)
            ((s.cache_head + filled) % SLAB_CACHE_SIZE) = i := by
          rw [← ht]
          exact bufGet_set_self _ _ _ htail_lt
        have hset_out : ringAt (s.free_block_buffer.set s.cache_tail i)
            s.cache_head filled = ringAt s.free_block_buffer s.cache_head
            filled := by
          apply ringAt_set_out
          intro j hj
          rw [ht]
          have h32 : SLAB_CACHE_BATCH_SIZE = 32 := rfl
          simp only [SLAB_CACHE_SIZE]
          simp only [SLAB_CACHE_SIZE] at ht
          omega
        have hmid : ringAt (s.free_block_buffer.set s.cache_tail i)
            s.cache_head (filled + 1) =
            ringAt s.free_block_buffer s.cache_head filled ++ [i] := by
          rw [ringAt_succ_snoc, hset_out, hget]
        refine ⟨?_, ih2, ih3, ih4, ih5, ih6, ih7, ih8, ih9, ih10, ?_, ?_⟩
        · rw [ih1, List.length_cons]; omega
        · rw [ih11]
          ext a
          simp only [List.toFinset_cons, Finset.mem_union, Finset.mem_insert]
          tauto
        · rw [ih12, hmid]
          simp
    · -- loop exit: scan finished or batch complete
      have hred : refill_loop (fuel + 1) s i filled = (s, filled) := by
        rw [refill_loop, if_neg hcond]
      have hp : refillPushed s i filled = [] := by
        unfold refillPushed
        rcases not_and_or.mp hcond with h | h
        · have hTi : s.total_block_count - i = 0 := by omega
          simp [hTi, clearList]
        · have hBf : SLAB_CACHE_BATCH_SIZE - filled = 0 := by omega
          simp [hBf]
      rw [hred, hp]
      simp [ht, hlen, hc]

theorem refillPushed_length_le (s : NvmSlab) :
    (refillPushed s 0 0).length ≤ SLAB_CACHE_BATCH_SIZE := by
  unfold refillPushed
  exact le_trans (List.length_take_le _ _) (by omega)

theorem refillPushed_nodup (s : NvmSlab) : (refillPushed s 0 0).Nodup :=
  (clearList_nodup _ _ _).sublist (List.take_sublist _ _)

theorem refillPushed_mem {s : NvmSlab} {x : Nat}
    (hx : x ∈ refillPushed s 0 0) :
    x < s.total_block_count ∧ x ∉ s.bitmap := by
  have h := List.mem_of_mem_take hx
  have h2 := mem_clearList.mp h
  exact ⟨by omega, h2.2⟩

/-- Behavior of `refill_cache` on an empty cache of a non-full slab: the scan
pushes exactly `refillPushed s 0 0` (the lowest clear bits, at most a
batch), sets their bits, and makes them the entire ring content. -/
theorem refill_cache_spec (s : NvmSlab)
    (hh : s.cache_head < SLAB_CACHE_SIZE)
    (hlen : s.free_block_buffer.length = SLAB_CACHE_SIZE)
    (hc : s.cache_count = 0)
    (ht : s.cache_tail = s.cache_head)
    (hnotfull : s.allocated_block_count < s.total_block_count) :
    (refill_cache s).2 = (refillPushed s 0 0).length ∧
    (refill_cache s).1.nvm_base_offset = s.nvm_base_offset ∧
    (refill_cache s).1.size_type_id = s.size_type_id ∧
    (refill_cache s).1.block_size = s.block_size ∧
    (refill_cache s).1.total_block_count = s.total_block_count ∧
    (refill_cache s).1.allocated_block_count = s.allocated_block_count ∧
    (refill_cache s).1.cache_head = s.cache_head ∧
    (refill_cache s).1.cache_count = (refillPushed s 0 0).length ∧
    (refill_cache s).1.cache_tail =
      (s.cache_head + (refillPushed s 0 0).length) % SLAB_CACHE_SIZE ∧
    (refill_cache s).1.free_block_buffer.length = SLAB_CACHE_SIZE ∧
    (refill_cache s).1.bitmap = s.bitmap ∪ (refillPushed s 0 0).toFinset ∧
    ringList (refill_cache s).1 = refillPushed s 0 0 := by
  have hnf : ¬ s.allocated_block_count ≥ s.total_block_count := by omega
  have ht0 : s.cache_tail = (s.cache_head + 0) % SLAB_CACHE_SIZE := by
    rw [ht, Nat.add_zero, Nat.mod_eq_of_lt hh]
  obtain ⟨h1, h2, h3, h4, h5, h6, h7, h8, h9, h10, h11, h12⟩ :=
    refill_loop_spec s.total_block_count s 0 0 (by omega) hh hlen hc ht0
      (by simp)
  rw [refill_cache, if_neg hnf]
  dsimp only
  rw [Nat.zero_add] at h1
  refine ⟨h1, h2, h3, h4, h5, h6, h7, by rw [h8, h1]; omega,
    by rw [h9, h1], h10, h11, ?_⟩
  simp only [ringList, h7, h8, Nat.zero_add]
  rw [h1] at h12 ⊢
  simp only [hc, ringAt_zero, List.nil_append] at h12
  exact h12

/-- Pushing one value at the tail of a non-full ring appends it to the
logical ring content. -/
theorem ringAt_push (buf : List Nat) (head count v : Nat)
    (hlen : buf.length = SLAB_CACHE_SIZE) (hcount : count < SLAB_CACHE_SIZE) :
    ringAt (buf.set ((head + count) % SLAB_CACHE_SIZE) v) head (count + 1) =
      ringAt buf head count ++ [v] := by
  rw [ringAt_succ_snoc]
  congr 1
  · apply ringAt_set_out
    intro j hj
    simp only [SLAB_CACHE_SIZE] at *
    omega
  · rw [bufGet_set_self]
    rw [hlen]
    exact Nat.mod_lt _ (by simp [SLAB_CACHE_SIZE])

/-- A non-empty ring is its head entry followed by the rest. -/
theorem ringList_cons (s : NvmSlab) (hc : 0 < s.cache_count)
    (hh : s.cache_head < SLAB_CACHE_SIZE) :
    ringList s = bufGet s.free_block_buffer s.cache_head ::
      ringAt s.free_block_buffer (s.cache_head + 1) (s.cache_count - 1) := by
  obtain ⟨c, hcc⟩ : ∃ c, s.cache_count = c + 1 := ⟨s.cache_count - 1, by omega⟩
  rw [ringList, hcc, ringAt_succ_cons, Nat.mod_eq_of_lt hh]
  simp

/-- Behavior of `drain_cache` at the high-water mark (`cache_count = CACHE_SIZE`)
drains exactly `CACHE_SIZE - BATCH = 32` entries FIFO from the head. -/
theorem drain_cache_spec (s : NvmSlab)
    (hfull : s.cache_count = SLAB_CACHE_SIZE)
    (hh : s.cache_head < SLAB_CACHE_SIZE) :
    drain_cache s =
      ({ s with
          cache_head := (s.cache_head + SLAB_CACHE_BATCH_SIZE) % SLAB_CACHE_SIZE
          cache_count := SLAB_CACHE_BATCH_SIZE
          bitmap := s.bitmap \
            ((ringList s).take SLAB_CACHE_BATCH_SIZE).toFinset },
        SLAB_CACHE_BATCH_SIZE) := by
  have hgt : ¬ s.cache_count ≤ SLAB_CACHE_BATCH_SIZE := by
    rw [hfull]; simp [SLAB_CACHE_SIZE, SLAB_CACHE_BATCH_SIZE]
  rw [drain_cache, if_neg hgt, hfull]
  have h32 : SLAB_CACHE_SIZE - SLAB_CACHE_BATCH_SIZE = SLAB_CACHE_BATCH_SIZE := by
    simp [SLAB_CACHE_SIZE, SLAB_CACHE_BATCH_SIZE]
  rw [h32, drain_loop_spec _ s (by omega) hh, hfull, h32]

/-- Behavior of `nvm_slab_alloc` on a non-empty cache: no refill, pop from the
head. -/
theorem nvm_slab_alloc_pop (s : NvmSlab) (hc : ¬ s.cache_count = 0) :
    nvm_slab_alloc s = some ({ s with
      cache_head := (s.cache_head + 1) % SLAB_CACHE_SIZE
      cache_count := s.cache_count - 1
      allocated_block_count := s.allocated_block_count + 1 },
      bufGet s.free_block_buffer s.cache_head) := by
  rw [nvm_slab_alloc]
  simp only [if_neg hc]

/-- Behavior of `nvm_slab_free` of an in-range index while the ring is below the
high-water mark: no drain, the index is pushed at the tail and its bit
stays set. -/
theorem nvm_slab_free_nodrain (s : NvmSlab) (idx : Nat)
    (hidx : idx < s.total_block_count)
    (halloc : 0 < s.allocated_block_count)
    (hcount : s.cache_count < SLAB_CACHE_SIZE) :
    nvm_slab_free s idx = { s with
      allocated_block_count := s.allocated_block_count - 1
      free_block_buffer := s.free_block_buffer.set s.cache_tail idx
      cache_tail := (s.cache_tail + 1) % SLAB_CACHE_SIZE
      cache_count := s.cache_count + 1 } := by
  have h1 : ¬ idx ≥ s.total_block_count := by omega
  have h3 : ¬ s.cache_count ≥ SLAB_CACHE_SIZE := Nat.not_le.mpr hcount
  simp only [nvm_slab_free, if_neg h1, if_pos halloc, if_neg h3]

/-- Behavior of `nvm_slab_free` of an in-range index while the ring sits exactly at
the high-water mark (`cache_count = CACHE_SIZE`): the drain pops a
batch from the head, clearing those bits, before the freed index is
pushed, leaving `cache_count = BATCH + 1`. -/
theorem nvm_slab_free_drain (s : NvmSlab) (idx : Nat)
    (hidx : idx < s.total_block_count)
    (halloc : 0 < s.allocated_block_count)
    (hcount : s.cache_count = SLAB_CACHE_SIZE)
    (hh : s.cache_head < SLAB_CACHE_SIZE) :
    nvm_slab_free s idx = { s with
      allocated_block_count := s.allocated_block_count - 1
      cache_head := (s.cache_head + SLAB_CACHE_BATCH_SIZE) % SLAB_CACHE_SIZE
      bitmap := s.bitmap \ ((ringList s).take SLAB_CACHE_BATCH_SIZE).toFinset
      free_block_buffer := s.free_block_buffer.set s.cache_tail idx
      cache_tail := (s.cache_tail + 1) % SLAB_CACHE_SIZE
      cache_count := SLAB_CACHE_BATCH_SIZE + 1 } := by
  have h1 : ¬ idx ≥ s.total_block_count := by omega
  have h3 : ({ s with
      allocated_block_count := s.allocated_block_count - 1 } :
      NvmSlab).cache_count ≥ SLAB_CACHE_SIZE := by
    simp [hcount]
  have hspec := drain_cache_spec
    { s with allocated_block_count := s.allocated_block_count - 1 }
    (by simp [hcount]) (by simp [hh])
  simp only [nvm_slab_free, if_neg h1, if_pos halloc, if_pos h3, hspec,
    ringList]

/-! ### The slab invariant -/

theorem slabInv_create {sc : SizeClassID} {off : Nat} {s : NvmSlab}
    (h : nvm_slab_create sc off = some s) : SlabInv s ∅ := by
  unfold nvm_slab_create at h
  by_cases hbs : get_block_size_from_sc_id sc = 0
  · simp [hbs] at h
  · rw [if_neg hbs] at h
    obtain rfl := (Option.some.inj h).symm
    refine ⟨⟨?_, ?_, ?_, ?_⟩, ?_, ?_, ?_, ?_, ?_, ?_⟩ <;>
      simp [ringList, ringAt, CacheWF, SLAB_CACHE_SIZE]

theorem slabInv_mark {s : NvmSlab} {held : Finset Nat} {idx : Nat}
    {s' : NvmSlab} (hInv : SlabInv s held)
    (h : nvm_slab_set_bitmap_at_idx s idx = some s') :
    SlabInv s' (if idx ∈ s.bitmap then held else insert idx held) := by
  obtain ⟨hwf, hnd, hmem, hcard, hheld, hacard, hrange⟩ := hInv
  unfold nvm_slab_set_bitmap_at_idx at h
  by_cases h1 : idx ≥ s.total_block_count
  · simp [h1] at h
  · rw [if_neg h1] at h
    by_cases h2 : idx ∉ s.bitmap
    · rw [if_pos h2] at h
      obtain rfl := (Option.some.inj h).symm
      rw [if_neg h2]
      have hring : ringList { s with
          bitmap := insert idx s.bitmap
          allocated_block_count := s.allocated_block_count + 1 } =
          ringList s := rfl
      refine ⟨hwf, ?_, ?_, ?_, ?_, ?_, ?_⟩
      · rw [hring]; exact hnd
      · rw [hring]
        intro i hi
        exact ⟨(hmem i hi).1, Finset.mem_insert_of_mem (hmem i hi).2⟩
      · show (insert idx s.bitmap).card = s.allocated_block_count + 1 +
          s.cache_count
        rw [Finset.card_insert_of_not_mem h2, hcard]
        omega
      · intro i
        rw [hring]
        show i ∈ insert idx held ↔ i ∈ insert idx s.bitmap ∧ i ∉ ringList s
        constructor
        · intro hi
          rcases Finset.mem_insert.mp hi with rfl | hi
          · exact ⟨Finset.mem_insert_self _ _,
              fun hr => h2 ((hmem _ hr).2)⟩
          · exact ⟨Finset.mem_insert_of_mem ((hheld i).mp hi).1,
              ((hheld i).mp hi).2⟩
        · intro ⟨hi, hr⟩
          rcases Finset.mem_insert.mp hi with rfl | hi
          · exact Finset.mem_insert_self _ _
          · exact Finset.mem_insert_of_mem ((hheld i).mpr ⟨hi, hr⟩)
      · show s.allocated_block_count + 1 = (insert idx held).card
        have hnot : idx ∉ held := fun hc => h2 ((hheld idx).mp hc).1
        rw [Finset.card_insert_of_not_mem hnot, hacard]
      · intro i hi
        rcases Finset.mem_insert.mp hi with rfl | hi
        · show i < s.total_block_count
          omega
        · exact hrange i hi
    · rw [if_neg h2] at h
      obtain rfl := (Option.some.inj h).symm
      rw [if_pos (not_not.mp h2)]
      exact ⟨hwf, hnd, hmem, hcard, hheld, hacard, hrange⟩

theorem slabInv_refill {s : NvmSlab} {held : Finset Nat}
    (hInv : SlabInv s held) (hc0 : s.cache_count = 0) :
    SlabInv (refill_cache s).1 held := by
  obtain ⟨⟨hlen, hh, hcle, ht⟩, hnd, hmem, hcard, hheld, hacard, hrange⟩ := hInv
  by_cases hfull : s.allocated_block_count ≥ s.total_block_count
  · rw [refill_cache, if_pos hfull]
    exact ⟨⟨hlen, hh, hcle, ht⟩, hnd, hmem, hcard, hheld, hacard, hrange⟩
  · have ht' : s.cache_tail = s.cache_head := by
      rw [ht, hc0, Nat.add_zero, Nat.mod_eq_of_lt hh]
    obtain ⟨r1, r2, r3, r4, r5, r6, r7, r8, r9, r10, r11, r12⟩ :=
      refill_cache_spec s hh hlen hc0 ht' (by omega)
    have hring0 : ringList s = [] := by rw [ringList, hc0]; rfl
    have hdisj : ∀ a ∈ refillPushed s 0 0, a ∉ s.bitmap :=
      fun a ha => (refillPushed_mem ha).2
    have hlenP : (refillPushed s 0 0).toFinset.card =
        (refillPushed s 0 0).length :=
      List.toFinset_card_of_nodup (refillPushed_nodup s)
    refine ⟨⟨r10, by rw [r7]; exact hh, ?_, by rw [r9, r8, r7]⟩, ?_, ?_, ?_,
      ?_, ?_, ?_⟩
    · rw [r8]
      have := refillPushed_length_le s
      simp only [SLAB_CACHE_BATCH_SIZE, SLAB_CACHE_SIZE] at *
      omega
    · rw [r12]; exact refillPushed_nodup s
    · rw [r12, r11, r5]
      intro i hi
      exact ⟨(refillPushed_mem hi).1,
        Finset.mem_union_right _ (List.mem_toFinset.mpr hi)⟩
    · rw [r11, r6, r8]
      rw [Finset.card_union_of_disjoint (by
        rw [Finset.disjoint_right]
        intro a ha
        exact hdisj a (List.mem_toFinset.mp ha))]
      rw [hlenP, hcard, hc0]
      omega
    · intro i
      rw [r11, r12]
      constructor
      · intro hi
        have hibm := ((hheld i).mp hi).1
        exact ⟨Finset.mem_union_left _ hibm,
          fun hP => hdisj i hP hibm⟩
      · intro ⟨hi, hP⟩
        rcases Finset.mem_union.mp hi with hibm | hiP
        · exact (hheld i).mpr ⟨hibm, by rw [hring0]; exact List.not_mem_nil i⟩
        · exact absurd (List.mem_toFinset.mp hiP) hP
    · rw [r6]; exact hacard
    · rw [r11, r5]
      intro i hi
      rcases Finset.mem_union.mp hi with hibm | hiP
      · exact hrange i hibm
      · exact (refillPushed_mem (List.mem_toFinset.mp hiP)).1

theorem slabInv_pop {s : NvmSlab} {held : Finset Nat}
    (hInv : SlabInv s held) (hc : ¬ s.cache_count = 0) :
    SlabInv { s with
        cache_head := (s.cache_head + 1) % SLAB_CACHE_SIZE
        cache_count := s.cache_count - 1
        allocated_block_count := s.allocated_block_count + 1 }
      (insert (bufGet s.free_block_buffer s.cache_head) held) := by
  obtain ⟨⟨hlen, hh, hcle, ht⟩, hnd, hmem, hcard, hheld, hacard, hrange⟩ := hInv
  have hcons := ringList_cons s (by omega) hh
  set x := bufGet s.free_block_buffer s.cache_head with hx
  set rest := ringAt s.free_block_buffer (s.cache_head + 1) (s.cache_count - 1)
    with hrest
  have hring' : ringList { s with
      cache_head := (s.cache_head + 1) % SLAB_CACHE_SIZE
      cache_count := s.cache_count - 1
      allocated_block_count := s.allocated_block_count + 1 } = rest := by
    rw [ringList]
    exact ringAt_mod _ _ _
  have hxring : x ∈ ringList s := by rw [hcons]; exact List.mem_cons_self _ _
  have hxbm : x ∈ s.bitmap := (hmem x hxring).2
  have hxrest : x ∉ rest := by
    rw [hcons] at hnd
    exact (List.nodup_cons.mp hnd).1
  have hxheld : x ∉ held := fun hc => ((hheld x).mp hc).2 hxring
  refine ⟨⟨hlen, Nat.mod_lt _ (by simp [SLAB_CACHE_SIZE]),
    (show s.cache_count - 1 ≤ SLAB_CACHE_SIZE by omega), ?_⟩,
    ?_, ?_, ?_, ?_, ?_, ?_⟩
  · show s.cache_tail = ((s.cache_head + 1) % SLAB_CACHE_SIZE +
      (s.cache_count - 1)) % SLAB_CACHE_SIZE
    rw [ht, Nat.mod_add_mod]
    congr 1
    omega
  · rw [hring']
    rw [hcons] at hnd
    exact (List.nodup_cons.mp hnd).2
  · rw [hring']
    intro i hi
    have : i ∈ ringList s := by rw [hcons]; exact List.mem_cons_of_mem _ hi
    exact hmem i this
  · show s.bitmap.card = s.allocated_block_count + 1 + (s.cache_count - 1)
    rw [hcard]
    omega
  · intro i
    rw [hring']
    constructor
    · intro hi
      rcases Finset.mem_insert.mp hi with rfl | hi
      · exact ⟨hxbm, hxrest⟩
      · refine ⟨((hheld i).mp hi).1, fun hr => ((hheld i).mp hi).2 ?_⟩
        rw [hcons]
        exact List.mem_cons_of_mem _ hr
    · intro ⟨hi, hr⟩
      by_cases hix : i = x
      · exact hix ▸ Finset.mem_insert_self _ _
      · refine Finset.mem_insert_of_mem ((hheld i).mpr ⟨hi, fun hrs => ?_⟩)
        rw [hcons] at hrs
        rcases List.mem_cons.mp hrs with h | h
        · exact hix h
        · exact hr h
  · show s.allocated_block_count + 1 = (insert x held).card
    rw [Finset.card_insert_of_not_mem hxheld, hacard]
  · exact hrange

theorem slabInv_alloc {s : NvmSlab} {held : Finset Nat} {s' : NvmSlab}
    {idx : Nat} (hInv : SlabInv s held)
    (h : nvm_slab_alloc s = some (s', idx)) :
    SlabInv s' (insert idx held) := by
  by_cases hc0 : s.cache_count = 0
  · have hInv1 := slabInv_refill hInv hc0
    rw [nvm_slab_alloc] at h
    simp only [if_pos hc0] at h
    by_cases hc1 : (refill_cache s).1.cache_count = 0
    · rw [if_pos hc1] at h
      exact absurd h (by simp)
    · rw [if_neg hc1] at h
      obtain ⟨h1, h2⟩ := Prod.mk.inj (Option.some.inj h)
      subst h1
      subst h2
      exact slabInv_pop hInv1 hc1
  · rw [nvm_slab_alloc] at h
    simp only [if_neg hc0] at h
    obtain ⟨h1, h2⟩ := Prod.mk.inj (Option.some.inj h)
    subst h1
    subst h2
    exact slabInv_pop hInv hc0

theorem slabInv_free {s : NvmSlab} {held : Finset Nat} {idx : Nat}
    (hInv : SlabInv s held) (hidx : idx ∈ held) :
    SlabInv (nvm_slab_free s idx) (held.erase idx) := by
  obtain ⟨⟨hlen, hh, hcle, ht⟩, hnd, hmem, hcard, hheld, hacard, hrange⟩ := hInv
  have hpair := (hheld idx).mp hidx
  have hbm : idx ∈ s.bitmap := hpair.1
  have hnr : idx ∉ ringList s := hpair.2
  have hlt : idx < s.total_block_count := hrange idx hbm
  have halloc : 0 < s.allocated_block_count := by
    rw [hacard]; exact Finset.card_pos.mpr ⟨idx, hidx⟩
  have hcerase : (held.erase idx).card = held.card - 1 :=
    Finset.card_erase_of_mem hidx
  by_cases hfull : s.cache_count = SLAB_CACHE_SIZE
  · -- the ring is at the high-water mark: the drain fires
    rw [nvm_slab_free_drain s idx hlt halloc hfull hh]
    have hK : ((ringList s).take SLAB_CACHE_BATCH_SIZE).length =
        SLAB_CACHE_BATCH_SIZE := by
      rw [List.length_take, ringList_length, hfull]
      simp [SLAB_CACHE_SIZE, SLAB_CACHE_BATCH_SIZE]
    have hKsub : ∀ a ∈ (ringList s).take SLAB_CACHE_BATCH_SIZE,
        a ∈ ringList s := fun a ha => List.mem_of_mem_take ha
    have hDsub : ∀ a ∈ (ringList s).drop SLAB_CACHE_BATCH_SIZE,
        a ∈ ringList s := fun a ha => List.mem_of_mem_drop ha
    have hKnd : ((ringList s).take SLAB_CACHE_BATCH_SIZE).Nodup :=
      (List.take_sublist _ _).nodup hnd
    have hDnd : ((ringList s).drop SLAB_CACHE_BATCH_SIZE).Nodup :=
      (List.drop_sublist _ _).nodup hnd
    have hKD : ∀ a ∈ (ringList s).drop SLAB_CACHE_BATCH_SIZE,
        a ∉ (ringList s).take SLAB_CACHE_BATCH_SIZE :=
      fun a ha hb => List.disjoint_take_drop hnd le_rfl hb ha
    have hKfin_sub : ((ringList s).take SLAB_CACHE_BATCH_SIZE).toFinset ⊆
        s.bitmap := fun a ha =>
      (hmem a (hKsub a (List.mem_toFinset.mp ha))).2
    have hKcard : ((ringList s).take SLAB_CACHE_BATCH_SIZE).toFinset.card =
        SLAB_CACHE_BATCH_SIZE := by
      rw [List.toFinset_card_of_nodup hKnd, hK]
    have hidxK : idx ∉ (ringList s).take SLAB_CACHE_BATCH_SIZE :=
      fun hc => hnr (hKsub idx hc)
    have hpos : s.cache_tail =
        ((s.cache_head + SLAB_CACHE_BATCH_SIZE) + SLAB_CACHE_BATCH_SIZE) %
          SLAB_CACHE_SIZE := by
      rw [ht, hfull]
      congr 1
    have hringnew : ringList { s with
        allocated_block_count := s.allocated_block_count - 1
        cache_head := (s.cache_head + SLAB_CACHE_BATCH_SIZE) % SLAB_CACHE_SIZE
        bitmap := s.bitmap \
          ((ringList s).take SLAB_CACHE_BATCH_SIZE).toFinset
        free_block_buffer := s.free_block_buffer.set s.cache_tail idx
        cache_tail := (s.cache_tail + 1) % SLAB_CACHE_SIZE
        cache_count := SLAB_CACHE_BATCH_SIZE + 1 } =
        (ringList s).drop SLAB_CACHE_BATCH_SIZE ++ [idx] := by
      rw [ringList]
      dsimp only
      rw [ringAt_mod, hpos, ringAt_push _ _ _ _ hlen
        (by simp [SLAB_CACHE_SIZE, SLAB_CACHE_BATCH_SIZE])]
      congr 1
      rw [ringList, ringAt_drop _ _ _ _ (by
        rw [hfull]; simp [SLAB_CACHE_SIZE, SLAB_CACHE_BATCH_SIZE]), hfull]
      congr 1
    have hsplit := List.take_append_drop SLAB_CACHE_BATCH_SIZE (ringList s)
    refine ⟨⟨?_, Nat.mod_lt _ (by simp [SLAB_CACHE_SIZE]),
      (by simp [SLAB_CACHE_SIZE, SLAB_CACHE_BATCH_SIZE]), ?_⟩,
      ?_, ?_, ?_, ?_, ?_, ?_⟩
    · show (s.free_block_buffer.set s.cache_tail idx).length = SLAB_CACHE_SIZE
      rw [List.length_set, hlen]
    · show (s.cache_tail + 1) % SLAB_CACHE_SIZE =
        ((s.cache_head + SLAB_CACHE_BATCH_SIZE) % SLAB_CACHE_SIZE +
          (SLAB_CACHE_BATCH_SIZE + 1)) % SLAB_CACHE_SIZE
      rw [ht, hfull, Nat.mod_add_mod, Nat.mod_add_mod]
      congr 1
    · rw [hringnew]
      rw [← List.concat_eq_append]
      exact hDnd.concat (fun hc => hnr (hDsub idx hc))
    · rw [hringnew]
      intro i hi
      rcases List.mem_append.mp hi with hi | hi
      · refine ⟨(hmem i (hDsub i hi)).1, ?_⟩
        show i ∈ s.bitmap \ ((ringList s).take SLAB_CACHE_BATCH_SIZE).toFinset
        rw [Finset.mem_sdiff]
        exact ⟨(hmem i (hDsub i hi)).2,
          fun hc => hKD i hi (List.mem_toFinset.mp hc)⟩
      · rw [List.mem_singleton.mp hi]
        refine ⟨hlt, ?_⟩
        show idx ∈ s.bitmap \ ((ringList s).take SLAB_CACHE_BATCH_SIZE).toFinset
        rw [Finset.mem_sdiff]
        exact ⟨hbm, fun hc => hidxK (List.mem_toFinset.mp hc)⟩
    · show (s.bitmap \ ((ringList s).take SLAB_CACHE_BATCH_SIZE).toFinset).card
        = s.allocated_block_count - 1 + (SLAB_CACHE_BATCH_SIZE + 1)
      rw [Finset.card_sdiff hKfin_sub, hKcard, hcard, hfull]
      simp only [SLAB_CACHE_SIZE, SLAB_CACHE_BATCH_SIZE]
      omega
    · intro i
      rw [hringnew]
      show i ∈ held.erase idx ↔
        i ∈ s.bitmap \ ((ringList s).take SLAB_CACHE_BATCH_SIZE).toFinset ∧
        i ∉ (ringList s).drop SLAB_CACHE_BATCH_SIZE ++ [idx]
      rw [Finset.mem_erase, hheld i, Finset.mem_sdiff, List.mem_toFinset,
        List.mem_append, List.mem_singleton]
      constructor
      · intro ⟨hne, hibm, hir⟩
        refine ⟨⟨hibm, fun hc => hir (hKsub i hc)⟩, fun hc => ?_⟩
        rcases hc with hc | hc
        · exact hir (hDsub i hc)
        · exact hne hc
      · intro ⟨⟨hibm, hiK⟩, hir⟩
        refine ⟨fun hc => hir (Or.inr hc), hibm, fun hc => ?_⟩
        rw [← hsplit] at hc
        rcases List.mem_append.mp hc with hc | hc
        · exact hiK hc
        · exact hir (Or.inl hc)
    · show s.allocated_block_count - 1 = (held.erase idx).card
      rw [hcerase, hacard]
    · intro i hi
      have : i ∈ s.bitmap := (Finset.mem_sdiff.mp hi).1
      show i < s.total_block_count
      exact hrange i this
  · -- the ring is below the high-water mark: plain push
    have hlt64 : s.cache_count < SLAB_CACHE_SIZE := by omega
    rw [nvm_slab_free_nodrain s idx hlt halloc hlt64]
    have hringnew : ringList { s with
        allocated_block_count := s.allocated_block_count - 1
        free_block_buffer := s.free_block_buffer.set s.cache_tail idx
        cache_tail := (s.cache_tail + 1) % SLAB_CACHE_SIZE
        cache_count := s.cache_count + 1 } =
        ringList s ++ [idx] := by
      rw [ringList]
      dsimp only
      rw [ht, ringAt_push _ _ _ _ hlen hlt64]
      rfl
    refine ⟨⟨?_, hh,
      (show s.cache_count + 1 ≤ SLAB_CACHE_SIZE by omega), ?_⟩,
      ?_, ?_, ?_, ?_, ?_, ?_⟩
    · show (s.free_block_buffer.set s.cache_tail idx).length = SLAB_CACHE_SIZE
      rw [List.length_set, hlen]
    · show (s.cache_tail + 1) % SLAB_CACHE_SIZE =
        (s.cache_head + (s.cache_count + 1)) % SLAB_CACHE_SIZE
      rw [ht, Nat.mod_add_mod, Nat.add_assoc]
    · rw [hringnew, ← List.concat_eq_append]
      exact hnd.concat hnr
    · rw [hringnew]
      intro i hi
      rcases List.mem_append.mp hi with hi | hi
      · exact hmem i hi
      · rw [List.mem_singleton.mp hi]
        exact ⟨hlt, hbm⟩
    · show s.bitmap.card = s.allocated_block_count - 1 + (s.cache_count + 1)
      rw [hcard]
      omega
    · intro i
      rw [hringnew]
      show i ∈ held.erase idx ↔
        i ∈ s.bitmap ∧ i ∉ ringList s ++ [idx]
      rw [Finset.mem_erase, hheld i, List.mem_append, List.mem_singleton]
      constructor
      · intro ⟨hne, hibm, hir⟩
        exact ⟨hibm, fun hc => hc.elim hir hne⟩
      · intro ⟨hibm, hir⟩
        exact ⟨fun hc => hir (Or.inr hc), hibm, fun hc => hir (Or.inl hc)⟩
    · show s.allocated_block_count - 1 = (held.erase idx).card
      rw [hcerase, hacard]
    · exact hrange

theorem slabReach_inv {s : NvmSlab} {held : Finset Nat}
    (h : SlabReach s held) : SlabInv s held := by
  induction h with
  | create sc off s h => exact slabInv_create h
  | alloc s held s' idx _ h ih => exact slabInv_alloc ih h
  | free s held idx _ hmem ih => exact slabInv_free ih hmem
  | mark s held idx s' _ h ih => exact slabInv_mark ih h

/-- Claim C1: In every reachable state of a slab (fresh slab evolved by
`nvm_slab_alloc`, `nvm_slab_free` of a currently held block, and
`nvm_slab_set_bitmap_at_idx`), the bitmap popcount equals
`allocated_block_count + cache_count`, the ring-buffer count never
exceeds `SLAB_CACHE_SIZE`, and every index cached in the ring buffer is
unique, below `total_block_count`, and has its bitmap bit set. -/
theorem slab_bitmap_ring_invariant (s : NvmSlab) (held : Finset Nat)
    (h : SlabReach s held) :
    s.bitmap.card = s.allocated_block_count + s.cache_count ∧
    s.cache_count ≤ SLAB_CACHE_SIZE ∧
    (ringList s).Nodup ∧
    (∀ i ∈ ringList s, i < s.total_block_count ∧ i ∈ s.bitmap) := by
  obtain ⟨⟨_, _, hcle, _⟩, hnd, hmem, hcard, _, _, _⟩ := slabReach_inv h
  exact ⟨hcard, hcle, hnd, hmem⟩

theorem slab_bitmap_ring_invariant_witness :
    slabW.bitmap.card = slabW.allocated_block_count + slabW.cache_count ∧
    slabW.cache_count ≤ SLAB_CACHE_SIZE ∧
    (ringList slabW).Nodup ∧
    (∀ i ∈ ringList slabW, i < slabW.total_block_count ∧ i ∈ slabW.bitmap) :=
  slab_bitmap_ring_invariant slabW ∅ (SlabReach.create SC_8B 0 slabW rfl)

/-- Claim C8: `nvm_slab_set_bitmap_at_idx` (restore_mark) is idempotent
for every in-range block index: the first call succeeds with the bit
set and `allocated_block_count` incremented exactly when the bit was
clear, and a second call on the same index returns the very same state
with success; an index at or beyond `total_block_count` is rejected
(with no state change, the operation being pure). -/
theorem restore_mark_idempotent (s : NvmSlab) (idx : Nat) :
    (idx < s.total_block_count →
      ∃ s', nvm_slab_set_bitmap_at_idx s idx = some s' ∧
        nvm_slab_set_bitmap_at_idx s' idx = some s' ∧
        idx ∈ s'.bitmap ∧
        s'.bitmap = insert idx s.bitmap ∧
        s'.allocated_block_count =
          (if idx ∈ s.bitmap then s.allocated_block_count
            else s.allocated_block_count + 1)) ∧
    (s.total_block_count ≤ idx → nvm_slab_set_bitmap_at_idx s idx = none) := by
  constructor
  · intro hlt
    have h1 : ¬ idx ≥ s.total_block_count := by omega
    by_cases hbm : idx ∈ s.bitmap
    · refine ⟨s, ?_, ?_, hbm, (Finset.insert_eq_self.mpr hbm).symm, by
        rw [if_pos hbm]⟩
      · rw [nvm_slab_set_bitmap_at_idx, if_neg h1, if_neg (not_not.mpr hbm)]
      · rw [nvm_slab_set_bitmap_at_idx, if_neg h1, if_neg (not_not.mpr hbm)]
    · refine ⟨{ s with
        bitmap := insert idx s.bitmap
        allocated_block_count := s.allocated_block_count + 1 },
        ?_, ?_, Finset.mem_insert_self _ _, rfl, by rw [if_neg hbm]⟩
      · rw [nvm_slab_set_bitmap_at_idx, if_neg h1, if_pos hbm]
      · rw [nvm_slab_set_bitmap_at_idx]
        have h2 : ¬ idx ≥ ({ s with
            bitmap := insert idx s.bitmap
            allocated_block_count := s.allocated_block_count + 1 } :
            NvmSlab).total_block_count := by
          show ¬ idx ≥ s.total_block_count
          omega
        rw [if_neg h2,
          if_neg (not_not.mpr (Finset.mem_insert_self idx s.bitmap))]
  · intro hge
    rw [nvm_slab_set_bitmap_at_idx, if_pos hge]

theorem restore_mark_idempotent_witness :
    ∃ s', nvm_slab_set_bitmap_at_idx slabW 5 = some s' ∧
      nvm_slab_set_bitmap_at_idx s' 5 = some s' ∧
      5 ∈ s'.bitmap ∧
      s'.bitmap = insert 5 slabW.bitmap ∧
      s'.allocated_block_count =
        (if 5 ∈ slabW.bitmap then slabW.allocated_block_count
          else slabW.allocated_block_count + 1) :=
  (restore_mark_idempotent slabW 5).1 (by decide)

/-- Claim C5: When the ring buffer is empty and the slab is not full,
the refill scans the bitmap from bit 0 upward, pushing at most
`BATCH = 32` clear-bit indices — exactly the lowest clear bits in
ascending order, each set and pushed once — which become the whole ring
content; consequently, on a fresh 64-byte-class slab, after 33
allocations the ring count is 31, `allocated_block_count` is 33, and
the bitmap popcount is 64. -/
theorem alloc_refill_behavior :
    (∀ s : NvmSlab, CacheWF s → s.cache_count = 0 →
      s.allocated_block_count < s.total_block_count →
      refillPushed s 0 0 =
        (clearList s.bitmap 0 s.total_block_count).take
          SLAB_CACHE_BATCH_SIZE ∧
      (refillPushed s 0 0).length ≤ SLAB_CACHE_BATCH_SIZE ∧
      (refillPushed s 0 0).Nodup ∧
      (∀ x ∈ refillPushed s 0 0, x < s.total_block_count ∧ x ∉ s.bitmap) ∧
      (refill_cache s).2 = (refillPushed s 0 0).length ∧
      (refill_cache s).1.bitmap =
        s.bitmap ∪ (refillPushed s 0 0).toFinset ∧
      ringList (refill_cache s).1 = refillPushed s 0 0) ∧
    (nvm_slab_create SC_64B 0).map (fun s0 =>
        ((slabAllocMany s0 33).1.cache_count,
          (slabAllocMany s0 33).1.allocated_block_count,
          (slabAllocMany s0 33).1.bitmap.card)) = some (31, 33, 64) := by
  constructor
  · intro s hwf hc0 hnf
    obtain ⟨hlen, hh, _, ht⟩ := hwf
    have ht' : s.cache_tail = s.cache_head := by
      rw [ht, hc0, Nat.add_zero, Nat.mod_eq_of_lt hh]
    obtain ⟨r1, _, _, _, _, _, _, _, _, _, r11, r12⟩ :=
      refill_cache_spec s hh hlen hc0 ht' hnf
    refine ⟨by simp [refillPushed], refillPushed_length_le s,
      refillPushed_nodup s, fun x hx => refillPushed_mem hx, r1, r11, r12⟩
  · decide

theorem alloc_refill_behavior_witness :
    refillPushed slabW 0 0 =
      (clearList slabW.bitmap 0 slabW.total_block_count).take
        SLAB_CACHE_BATCH_SIZE ∧
    (refillPushed slabW 0 0).length ≤ SLAB_CACHE_BATCH_SIZE ∧
    (refillPushed slabW 0 0).Nodup ∧
    (∀ x ∈ refillPushed slabW 0 0, x < slabW.total_block_count ∧
      x ∉ slabW.bitmap) ∧
    (refill_cache slabW).2 = (refillPushed slabW 0 0).length ∧
    (refill_cache slabW).1.bitmap =
      slabW.bitmap ∪ (refillPushed slabW 0 0).toFinset ∧
    ringList (refill_cache slabW).1 = refillPushed slabW 0 0 :=
  alloc_refill_behavior.1 slabW ⟨by decide, by decide, by decide, by decide⟩
    (by decide) (by decide)

/-- Claim C3, counterexample: Running spec §8 scenario 3 exactly as
written — on a fresh 64-byte-class slab, allocate 64 blocks, free all
64 in allocation order, allocate one more block and free it — leaves
the ring-buffer count and the bitmap popcount at 64, not at
`BATCH + 1 = 33`: the final free finds the ring at 63 (the preceding
allocation popped one entry), so the drain does not fire. -/
theorem drain_scenario_counterexample :
    drainScenario.map (fun s => (s.cache_count, s.bitmap.card)) =
      some (64, 64) ∧
    drainScenario.map (fun s => (s.cache_count, s.bitmap.card)) ≠
      some (SLAB_CACHE_BATCH_SIZE + 1, SLAB_CACHE_BATCH_SIZE + 1) := by
  constructor
  · decide
  · decide

/-- Claim C3, amended: A free of an in-range index that finds the ring
at `CACHE_SIZE = 64` drains: it pops `CACHE_SIZE - BATCH = 32` indices
FIFO from the ring head, clearing their bitmap bits, and then pushes
the freed index, leaving the count at `BATCH + 1 = 33`; but in the
spec's concrete 64-byte scenario the final free finds the ring at 63
(the preceding allocation popped one entry), the drain does not fire,
and the resulting ring count and bitmap popcount are both 64. -/
theorem drain_behavior_amended :
    (∀ (s : NvmSlab) (idx : Nat), CacheWF s → idx < s.total_block_count →
      0 < s.allocated_block_count →
      s.cache_count = SLAB_CACHE_SIZE →
      (nvm_slab_free s idx).cache_count = SLAB_CACHE_BATCH_SIZE + 1 ∧
      (nvm_slab_free s idx).bitmap =
        s.bitmap \ ((ringList s).take SLAB_CACHE_BATCH_SIZE).toFinset ∧
      ringList (nvm_slab_free s idx) =
        (ringList s).drop SLAB_CACHE_BATCH_SIZE ++ [idx]) ∧
    drainScenario.map (fun s => (s.cache_count, s.bitmap.card)) =
      some (64, 64) := by
  constructor
  · intro s idx hwf hlt halloc hfull
    obtain ⟨hlen, hh, _, ht⟩ := hwf
    rw [nvm_slab_free_drain s idx hlt halloc hfull hh]
    refine ⟨rfl, rfl, ?_⟩
    have hpos : s.cache_tail =
        ((s.cache_head + SLAB_CACHE_BATCH_SIZE) + SLAB_CACHE_BATCH_SIZE) %
          SLAB_CACHE_SIZE := by
      rw [ht, hfull]
      congr 1
    rw [ringList]
    dsimp only
    rw [ringAt_mod, hpos, ringAt_push _ _ _ _ hlen
      (by simp [SLAB_CACHE_SIZE, SLAB_CACHE_BATCH_SIZE])]
    congr 1
    rw [ringList, ringAt_drop _ _ _ _ (by
      rw [hfull]; simp [SLAB_CACHE_SIZE, SLAB_CACHE_BATCH_SIZE]), hfull]
    congr 1
  · decide

theorem drain_behavior_amended_witness :
    (nvm_slab_free slabFullRing 64).cache_count =
      SLAB_CACHE_BATCH_SIZE + 1 ∧
    (nvm_slab_free slabFullRing 64).bitmap =
      slabFullRing.bitmap \
        ((ringList slabFullRing).take SLAB_CACHE_BATCH_SIZE).toFinset ∧
    ringList (nvm_slab_free slabFullRing 64) =
      (ringList slabFullRing).drop SLAB_CACHE_BATCH_SIZE ++ [64] :=
  drain_behavior_amended.1 slabFullRing 64
    ⟨by decide, by decide, by decide, by decide⟩ (by decide) (by decide)
    (by decide)

/-! ### Space manager lemmas and claims -/

theorem freeListWF_tail {a : FreeSegment} {l : List FreeSegment}
    (h : FreeListWF (a :: l)) : FreeListWF l := by
  cases l with
  | nil => trivial
  | cons b rest => exact h.2.2

theorem freeListWF_pos {a : FreeSegment} {l : List FreeSegment}
    (h : FreeListWF (a :: l)) : 0 < a.size := by
  cases l with
  | nil => exact h
  | cons b rest => exact h.1

theorem freeListWF_gap {a : FreeSegment} {l : List FreeSegment}
    (h : FreeListWF (a :: l)) :
    ∀ m ∈ l, a.nvm_offset + a.size < m.nvm_offset := by
  induction l generalizing a with
  | nil => intro m hm; cases hm
  | cons b rest ih =>
    intro m hm
    obtain ⟨_, hab, hbl⟩ := h
    rcases List.mem_cons.mp hm with rfl | hm
    · exact hab
    · have h1 := ih hbl m hm
      have h2 := freeListWF_pos hbl
      omega

/-- Claim C9, counterexample: `space_manager_create` does not truncate a
size that is not a multiple of `NVM_SLAB_SIZE`: the initial segment
keeps the size exactly as given. -/
theorem space_manager_create_counterexample :
    space_manager_create (NVM_SLAB_SIZE + 1) 0 =
      some [⟨0, NVM_SLAB_SIZE + 1⟩] ∧
    space_manager_create (NVM_SLAB_SIZE + 1) 0 ≠
      some [⟨0, NVM_SLAB_SIZE⟩] := by
  constructor
  · decide
  · decide

/-- Claim C9, amended: `space_manager_create(total_size, start_offset)`
fails exactly when `total_size < NVM_SLAB_SIZE`; on success it
initializes the free list to the single segment
`(start_offset, total_size)` with the size stored exactly as given —
sizes not divisible by `NVM_SLAB_SIZE` are not truncated. -/
theorem space_manager_create_spec (total off : Nat) :
    (total < NVM_SLAB_SIZE → space_manager_create total off = none) ∧
    (NVM_SLAB_SIZE ≤ total →
      space_manager_create total off = some [⟨off, total⟩]) := by
  constructor
  · intro h
    rw [space_manager_create, if_pos h]
  · intro h
    rw [space_manager_create, if_neg (by omega)]

theorem space_manager_create_spec_witness :
    space_manager_create 5 0 = none ∧
    space_manager_create (NVM_SLAB_SIZE + 1) 7 =
      some [⟨7, NVM_SLAB_SIZE + 1⟩] :=
  ⟨(space_manager_create_spec 5 0).1 (by decide),
    (space_manager_create_spec (NVM_SLAB_SIZE + 1) 7).2 (by decide)⟩

theorem alloc_slab_fail_unchanged :
    ∀ l : List FreeSegment, (space_manager_alloc_slab l).1 = none →
    (space_manager_alloc_slab l).2 = l := by
  intro l
  induction l with
  | nil => intro _; rfl
  | cons seg rest ih =>
    intro h
    rw [space_manager_alloc_slab] at h ⊢
    by_cases hfit : seg.size ≥ NVM_SLAB_SIZE
    · by_cases hex : seg.size = NVM_SLAB_SIZE
      · rw [if_pos hfit, if_pos hex] at h
        exact absurd h (by simp)
      · rw [if_pos hfit, if_neg hex] at h
        exact absurd h (by simp)
    · rw [if_neg hfit] at h ⊢
      simp only at h ⊢
      rw [ih h]

theorem alloc_at_fail_unchanged :
    ∀ (l : List FreeSegment) (off : Nat),
    (space_manager_alloc_at_offset l off).1 = false →
    (space_manager_alloc_at_offset l off).2 = l := by
  intro l off
  induction l with
  | nil => intro _; rfl
  | cons seg rest ih =>
    intro h
    rw [space_manager_alloc_at_offset] at h ⊢
    by_cases hcover : seg.nvm_offset ≤ off ∧
        off + NVM_SLAB_SIZE ≤ seg.nvm_offset + seg.size
    · rw [if_pos hcover] at h
      by_cases h1 : seg.nvm_offset = off ∧
          seg.nvm_offset + seg.size = off + NVM_SLAB_SIZE
      · rw [if_pos h1] at h; exact absurd h (by simp)
      · rw [if_neg h1] at h
        by_cases h2 : seg.nvm_offset = off
        · rw [if_pos h2] at h; exact absurd h (by simp)
        · rw [if_neg h2] at h
          by_cases h3 : seg.nvm_offset + seg.size = off + NVM_SLAB_SIZE
          · rw [if_pos h3] at h; exact absurd h (by simp)
          · rw [if_neg h3] at h; exact absurd h (by simp)
    · rw [if_neg hcover] at h ⊢
      simp only at h ⊢
      rw [ih h]

/-- Claim C4: Whenever a Space Manager operation fails — `alloc_slab`
finds no segment of at least `NVM_SLAB_SIZE`, or `alloc_at_offset`
finds no free segment containing the requested extent — the failure is
reported to the caller (`(uint64_t)-1` resp. `-1`, here `none` resp.
`false`) and the free-segment list is left exactly as it was.
(`free_slab` has no reportable failure: its only C failure modes are
assertion aborts on precondition violations and host-memory exhaustion,
neither of which is modelled.) -/
theorem space_manager_no_mutation_on_failure :
    (∀ l : List FreeSegment, (space_manager_alloc_slab l).1 = none →
      (space_manager_alloc_slab l).2 = l) ∧
    (∀ (l : List FreeSegment) (off : Nat),
      (space_manager_alloc_at_offset l off).1 = false →
      (space_manager_alloc_at_offset l off).2 = l) :=
  ⟨alloc_slab_fail_unchanged, alloc_at_fail_unchanged⟩

theorem space_manager_no_mutation_on_failure_witness :
    (space_manager_alloc_slab [⟨0, 5⟩]).2 = [⟨0, 5⟩] ∧
    (space_manager_alloc_at_offset [⟨0, NVM_SLAB_SIZE⟩]
      (3 * NVM_SLAB_SIZE)).2 = [⟨0, NVM_SLAB_SIZE⟩] :=
  ⟨space_manager_no_mutation_on_failure.1 [⟨0, 5⟩] (by decide),
    space_manager_no_mutation_on_failure.2 [⟨0, NVM_SLAB_SIZE⟩]
      (3 * NVM_SLAB_SIZE) (by decide)⟩

theorem coversOffset_cons {a : FreeSegment} {l : List FreeSegment} {x : Nat} :
    coversOffset (a :: l) x ↔
      (a.nvm_offset ≤ x ∧ x < a.nvm_offset + a.size) ∨ coversOffset l x := by
  simp [coversOffset, List.exists_mem_cons_iff]

theorem alloc_at_success_mem : ∀ {l : List FreeSegment} {off : Nat},
    (space_manager_alloc_at_offset l off).1 = true →
    ∃ m ∈ l, m.nvm_offset ≤ off ∧
      off + NVM_SLAB_SIZE ≤ m.nvm_offset + m.size := by
  intro l
  induction l with
  | nil =>
    intro off h
    exact absurd h (by simp [space_manager_alloc_at_offset])
  | cons seg rest ih =>
    intro off h
    by_cases hcover : seg.nvm_offset ≤ off ∧
        off + NVM_SLAB_SIZE ≤ seg.nvm_offset + seg.size
    · exact ⟨seg, List.mem_cons_self seg rest, hcover⟩
    · rw [space_manager_alloc_at_offset, if_neg hcover] at h
      simp only at h
      obtain ⟨m, hm, hcov⟩ := ih h
      exact ⟨m, List.mem_cons_of_mem seg hm, hcov⟩

/-- Semantics of a successful `space_manager_alloc_at_offset` on a
well-formed free list: it carves exactly the requested
`NVM_SLAB_SIZE`-extent out, byte for byte — an offset is covered by the
resulting list iff it was covered before and does not lie in the carved
extent. -/
theorem alloc_at_carve_covers : ∀ (l : List FreeSegment) (off : Nat),
    FreeListWF l →
    (space_manager_alloc_at_offset l off).1 = true →
    ∀ x, coversOffset (space_manager_alloc_at_offset l off).2 x ↔
      (coversOffset l x ∧ ¬ (off ≤ x ∧ x < off + NVM_SLAB_SIZE)) := by
  intro l
  induction l with
  | nil =>
    intro off _ hsucc
    exact absurd hsucc (by simp [space_manager_alloc_at_offset])
  | cons seg rest ih =>
    intro off hwf hsucc x
    have hgap := freeListWF_gap hwf
    rw [space_manager_alloc_at_offset] at hsucc ⊢
    by_cases hcover : seg.nvm_offset ≤ off ∧
        off + NVM_SLAB_SIZE ≤ seg.nvm_offset + seg.size
    · rw [if_pos hcover]
      have hro : ∀ y, coversOffset rest y →
          ¬ (off ≤ y ∧ y < off + NVM_SLAB_SIZE) := by
        intro y hy hext
        obtain ⟨m, hm, hy1, hy2⟩ := hy
        have := hgap m hm
        omega
      by_cases h1 : seg.nvm_offset = off ∧
          seg.nvm_offset + seg.size = off + NVM_SLAB_SIZE
      · rw [if_pos h1]
        dsimp only
        rw [coversOffset_cons]
        constructor
        · intro hc
          exact ⟨Or.inr hc, hro x hc⟩
        · rintro ⟨hc | hc, hext⟩
          · exact absurd ⟨by omega, by omega⟩ hext
          · exact hc
      · rw [if_neg h1]
        by_cases h2 : seg.nvm_offset = off
        · rw [if_pos h2]
          dsimp only
          rw [coversOffset_cons, coversOffset_cons]
          dsimp only
          have htail : seg.nvm_offset + seg.size ≠ off + NVM_SLAB_SIZE :=
            fun h => h1 ⟨h2, h⟩
          constructor
          · rintro (hc | hc)
            · exact ⟨Or.inl ⟨by omega, by omega⟩, by omega⟩
            · exact ⟨Or.inr hc, hro x hc⟩
          · rintro ⟨hc | hc, hext⟩
            · exact Or.inl ⟨by omega, by omega⟩
            · exact Or.inr hc
        · rw [if_neg h2]
          by_cases h3 : seg.nvm_offset + seg.size = off + NVM_SLAB_SIZE
          · rw [if_pos h3]
            dsimp only
            rw [coversOffset_cons, coversOffset_cons]
            dsimp only
            constructor
            · rintro (hc | hc)
              · exact ⟨Or.inl ⟨by omega, by omega⟩, by omega⟩
              · exact ⟨Or.inr hc, hro x hc⟩
            · rintro ⟨hc | hc, hext⟩
              · exact Or.inl ⟨by omega, by omega⟩
              · exact Or.inr hc
          · rw [if_neg h3]
            dsimp only
            rw [coversOffset_cons, coversOffset_cons, coversOffset_cons]
            dsimp only
            constructor
            · rintro (hc | hc | hc)
              · exact ⟨Or.inl ⟨by omega, by omega⟩, by omega⟩
              · exact ⟨Or.inl ⟨by omega, by omega⟩, by omega⟩
              · exact ⟨Or.inr hc, hro x hc⟩
            · rintro ⟨hc | hc, hext⟩
              · by_cases hx : x < off
                · exact Or.inl ⟨by omega, by omega⟩
                · exact Or.inr (Or.inl ⟨by omega, by omega⟩)
              · exact Or.inr (Or.inr hc)
    · rw [if_neg hcover] at hsucc ⊢
      simp only at hsucc ⊢
      obtain ⟨m, hm, hm1, hm2⟩ := alloc_at_success_mem hsucc
      have hseg_out : ∀ y,
          seg.nvm_offset ≤ y ∧ y < seg.nvm_offset + seg.size →
          ¬ (off ≤ y ∧ y < off + NVM_SLAB_SIZE) := by
        intro y hy hext
        have := hgap m hm
        omega
      rw [coversOffset_cons, coversOffset_cons,
        ih off (freeListWF_tail hwf) hsucc x]
      constructor
      · rintro (hc | ⟨hc, hext⟩)
        · exact ⟨Or.inl hc, hseg_out x hc⟩
        · exact ⟨Or.inr hc, hext⟩
      · rintro ⟨hc | hc, hext⟩
        · exact Or.inl hc
        · exact Or.inr ⟨hc, hext⟩

theorem alloc_slab_offset_mem {l : List FreeSegment} {o : Nat}
    (h : (space_manager_alloc_slab l).1 = some o) :
    ∃ m ∈ l, m.nvm_offset = o := by
  induction l with
  | nil => exact absurd h (by simp [space_manager_alloc_slab])
  | cons seg rest ih =>
    rw [space_manager_alloc_slab] at h
    by_cases hfit : seg.size ≥ NVM_SLAB_SIZE
    · by_cases hex : seg.size = NVM_SLAB_SIZE
      · rw [if_pos hfit, if_pos hex] at h
        exact ⟨seg, List.mem_cons_self _ _, Option.some.inj h⟩
      · rw [if_pos hfit, if_neg hex] at h
        exact ⟨seg, List.mem_cons_self _ _, Option.some.inj h⟩
    · rw [if_neg hfit] at h
      simp only at h
      obtain ⟨m, hm, rfl⟩ := ih h
      exact ⟨m, List.mem_cons_of_mem _ hm, rfl⟩

/-- Freeing an extent strictly beyond a non-abutting first segment
commutes with that segment. -/
theorem free_slab_cons (seg : FreeSegment) (l : List FreeSegment) (o : Nat)
    (hlt : seg.nvm_offset < o) (hnab : seg.nvm_offset + seg.size ≠ o) :
    space_manager_free_slab (seg :: l) o =
      seg :: space_manager_free_slab l o := by
  unfold space_manager_free_slab
  rw [@List.takeWhile_cons_of_pos _ (fun s : FreeSegment =>
      decide (s.nvm_offset < o)) seg l (by simp [hlt]),
    @List.dropWhile_cons_of_pos _ (fun s : FreeSegment =>
      decide (s.nvm_offset < o)) seg l (by simp [hlt])]
  dsimp only
  cases hB : l.takeWhile (fun s => decide (s.nvm_offset < o)) with
  | nil =>
    cases hA : l.dropWhile (fun s => decide (s.nvm_offset < o)) with
    | nil =>
      rw [List.getLast?_singleton, List.getLast?_nil]
      dsimp only
      simp [hnab]
    | cons n rest =>
      rw [List.getLast?_singleton, List.getLast?_nil]
      dsimp only
      by_cases hmn : o + NVM_SLAB_SIZE = n.nvm_offset
      · simp [hnab, hmn]
      · simp [hnab, hmn]
  | cons b B' =>
    have hlast : (seg :: b :: B').getLast? = (b :: B').getLast? :=
      List.getLast?_cons_cons
    rw [hlast]
    cases hL : (b :: B').getLast? with
    | none => simp at hL
    | some p =>
      have hdrop : (seg :: b :: B').dropLast = seg :: (b :: B').dropLast :=
        List.dropLast_cons₂
      cases hA : l.dropWhile (fun s => decide (s.nvm_offset < o)) with
      | nil =>
        dsimp only
        by_cases hpm : p.nvm_offset + p.size = o
        · simp [hpm, hdrop]
        · simp [hpm]
      | cons n rest =>
        dsimp only
        by_cases hpm : p.nvm_offset + p.size = o
        · by_cases hmn : o + NVM_SLAB_SIZE = n.nvm_offset
          · simp [hpm, hmn, hdrop]
          · simp [hpm, hmn, hdrop]
        · by_cases hmn : o + NVM_SLAB_SIZE = n.nvm_offset
          · simp [hpm, hmn]
          · simp [hpm, hmn]

/-- Claim C6: On a well-formed free list, immediately freeing the extent
a successful `space_manager_alloc_slab` returned restores the
free-segment list to exactly the pre-allocation state: the extent is
re-inserted at its address-sorted position and coalesced with any
abutting neighbor. -/
theorem alloc_free_roundtrip :
    ∀ (l : List FreeSegment), FreeListWF l →
    ∀ (o : Nat) (l' : List FreeSegment),
    space_manager_alloc_slab l = (some o, l') →
    space_manager_free_slab l' o = l := by
  intro l
  induction l with
  | nil =>
    intro _ o l' h
    simp [space_manager_alloc_slab] at h
  | cons seg rest ih =>
    intro hwf o l' h
    rw [space_manager_alloc_slab] at h
    by_cases hfit : seg.size ≥ NVM_SLAB_SIZE
    · by_cases hex : seg.size = NVM_SLAB_SIZE
      · rw [if_pos hfit, if_pos hex] at h
        obtain ⟨ho, hl'⟩ := Prod.mk.inj h
        obtain rfl := Option.some.inj ho
        subst hl'
        have hseg : (⟨seg.nvm_offset, NVM_SLAB_SIZE⟩ : FreeSegment) = seg := by
          obtain ⟨a, b⟩ := seg
          simp only at hex
          rw [hex]
        cases rest with
        | nil =>
          unfold space_manager_free_slab
          simp only [List.takeWhile_nil, List.dropWhile_nil, List.getLast?_nil]
          rw [hseg]
        | cons n rest' =>
          have hgap := freeListWF_gap hwf n (List.mem_cons_self _ _)
          have hnp : ¬ ((fun s : FreeSegment =>
              decide (s.nvm_offset < seg.nvm_offset)) n = true) := by
            simp only [decide_eq_true_eq]
            omega
          unfold space_manager_free_slab
          rw [@List.takeWhile_cons_of_neg _ (fun s : FreeSegment =>
              decide (s.nvm_offset < seg.nvm_offset)) n rest' hnp,
            @List.dropWhile_cons_of_neg _ (fun s : FreeSegment =>
              decide (s.nvm_offset < seg.nvm_offset)) n rest' hnp]
          simp only [List.getLast?_nil]
          rw [if_neg (show ¬ seg.nvm_offset + NVM_SLAB_SIZE = n.nvm_offset
            by omega), hseg]
      · rw [if_pos hfit, if_neg hex] at h
        obtain ⟨ho, hl'⟩ := Prod.mk.inj h
        obtain rfl := Option.some.inj ho
        subst hl'
        have hnp : ¬ ((fun s : FreeSegment =>
            decide (s.nvm_offset < seg.nvm_offset))
            (⟨seg.nvm_offset + NVM_SLAB_SIZE, seg.size - NVM_SLAB_SIZE⟩ :
              FreeSegment) = true) := by
          simp
        have hseg : (⟨seg.nvm_offset,
            NVM_SLAB_SIZE + (seg.size - NVM_SLAB_SIZE)⟩ : FreeSegment) =
            seg := by
          obtain ⟨a, b⟩ := seg
          simp only at hfit ⊢
          simp only [FreeSegment.mk.injEq, true_and]
          omega
        unfold space_manager_free_slab
        rw [@List.takeWhile_cons_of_neg _ (fun s : FreeSegment =>
            decide (s.nvm_offset < seg.nvm_offset)) _ rest hnp,
          @List.dropWhile_cons_of_neg _ (fun s : FreeSegment =>
            decide (s.nvm_offset < seg.nvm_offset)) _ rest hnp]
        simp only [List.getLast?_nil]
        simp only [if_true, hseg]
    · rw [if_neg hfit] at h
      simp only at h
      obtain ⟨h1, hl'⟩ := Prod.mk.inj h
      subst hl'
      obtain ⟨m, hm, rfl⟩ := alloc_slab_offset_mem h1
      have hgap := freeListWF_gap hwf m hm
      have hpos := freeListWF_pos hwf
      have key : space_manager_alloc_slab rest =
          (some m.nvm_offset, (space_manager_alloc_slab rest).2) := by
        rw [← h1]
      have hIH := ih (freeListWF_tail hwf) m.nvm_offset _ key
      rw [free_slab_cons seg _ _ (by omega) (by omega), hIH]

theorem alloc_free_roundtrip_witness :
    space_manager_free_slab
      [⟨NVM_SLAB_SIZE, NVM_SLAB_SIZE⟩, ⟨5 * NVM_SLAB_SIZE, NVM_SLAB_SIZE⟩] 0 =
      [⟨0, 2 * NVM_SLAB_SIZE⟩, ⟨5 * NVM_SLAB_SIZE, NVM_SLAB_SIZE⟩] :=
  alloc_free_roundtrip
    [⟨0, 2 * NVM_SLAB_SIZE⟩, ⟨5 * NVM_SLAB_SIZE, NVM_SLAB_SIZE⟩]
    (by exact ⟨by decide, by decide,
      show 0 < (⟨5 * NVM_SLAB_SIZE, NVM_SLAB_SIZE⟩ : FreeSegment).size
        from by decide⟩) 0
    [⟨NVM_SLAB_SIZE, NVM_SLAB_SIZE⟩, ⟨5 * NVM_SLAB_SIZE, NVM_SLAB_SIZE⟩]
    (by decide)

/-! ### Slab hash table lemmas and claims -/

theorem getD_set_list (L : List (List SlabHashNode)) (i j : Nat)
    (b : List SlabHashNode) :
    (L.set i b).getD j [] =
      if i = j ∧ i < L.length then b else L.getD j [] := by
  by_cases hij : i = j
  · subst hij
    by_cases hi : i < L.length
    · simp only [hi, and_true, if_pos trivial, List.getD_eq_getElem?_getD,
        List.getElem?_set_self hi, Option.getD_some, if_true]
    · have hset : L.set i b = L := by
        apply List.ext_getElem?
        intro n
        rw [List.getElem?_set]
        by_cases hn : i = n
        · subst hn
          simp [hi]
          omega
        · simp [hn]
      simp [hset, hi]
  · simp only [hij, false_and, if_false, List.getD_eq_getElem?_getD,
      List.getElem?_set_ne hij]

/-- Claim C10: For every well-formed slab-index table and key `k` not
present: `insert(k, v)` succeeds; afterwards `lookup(k)` returns `v`
while every other key looks up to the same value as before; a
subsequent `remove(k)` returns `v` and makes `lookup(k)` return nil
again; and `remove` of the absent key returns nil and leaves the table
unchanged (as does `lookup`, which is read-only). -/
theorem slab_hashtable_map_laws (t : SlabHashTable) (k : Nat) (v : NvmSlab)
    (hlen : t.buckets.length = t.capacity) (hcap : 0 < t.capacity)
    (habsent : slab_hashtable_lookup t k = none) :
    ∃ t', slab_hashtable_insert t k v = some t' ∧
      slab_hashtable_lookup t' k = some v ∧
      (∀ k', k' ≠ k →
        slab_hashtable_lookup t' k' = slab_hashtable_lookup t k') ∧
      (slab_hashtable_remove t' k).1 = some v ∧
      slab_hashtable_lookup (slab_hashtable_remove t' k).2 k = none ∧
      slab_hashtable_remove t k = (none, t) := by
  have hfind : (t.buckets.getD (hash_function t.capacity k) []).find?
      (fun e => decide (e.1 = k)) = none := by
    unfold slab_hashtable_lookup at habsent
    exact Option.map_eq_none'.mp habsent
  have hany : ¬ ((t.buckets.getD (hash_function t.capacity k) []).any
      (fun e => decide (e.1 = k)) = true) := by
    rw [List.any_eq_true]
    intro ⟨e, he, hek⟩
    exact absurd hek (by simpa using List.find?_eq_none.mp hfind e he)
  have hidx : hash_function t.capacity k < t.buckets.length := by
    rw [hlen]
    exact Nat.mod_lt _ hcap
  have hins : slab_hashtable_insert t k v = some { t with
      buckets := t.buckets.set (hash_function t.capacity k)
        ((k, v) :: t.buckets.getD (hash_function t.capacity k) [])
      count := t.count + 1 } := by
    rw [slab_hashtable_insert, if_neg hany]
  refine ⟨_, hins, ?_, ?_, ?_, ?_, ?_⟩
  · unfold slab_hashtable_lookup
    dsimp only
    rw [getD_set_list, if_pos ⟨rfl, hidx⟩,
      List.find?_cons_of_pos _ (by simp)]
    rfl
  · intro k' hk'
    unfold slab_hashtable_lookup
    dsimp only
    rw [getD_set_list]
    by_cases hh : hash_function t.capacity k = hash_function t.capacity k'
    · rw [if_pos ⟨hh, hidx⟩, List.find?_cons_of_neg _ (by simp [hk'.symm]),
        hh]
    · rw [if_neg (by simp [hh])]
  · unfold slab_hashtable_remove
    dsimp only
    rw [getD_set_list, if_pos ⟨rfl, hidx⟩,
      List.find?_cons_of_pos _ (by simp)]
  · unfold slab_hashtable_remove
    dsimp only
    rw [getD_set_list, if_pos ⟨rfl, hidx⟩,
      List.find?_cons_of_pos _ (by simp)]
    unfold slab_hashtable_lookup
    dsimp only
    rw [List.eraseP_cons_of_pos (by simp), List.set_set, getD_set_list,
      if_pos ⟨rfl, hidx⟩, hfind]
    rfl
  · unfold slab_hashtable_remove
    dsimp only
    rw [hfind]

theorem slab_hashtable_map_laws_witness :
    ∃ t', slab_hashtable_insert tableW NVM_SLAB_SIZE slabW = some t' ∧
      slab_hashtable_lookup t' NVM_SLAB_SIZE = some slabW ∧
      (∀ k', k' ≠ NVM_SLAB_SIZE →
        slab_hashtable_lookup t' k' = slab_hashtable_lookup tableW k') ∧
      (slab_hashtable_remove t' NVM_SLAB_SIZE).1 = some slabW ∧
      slab_hashtable_lookup
        (slab_hashtable_remove t' NVM_SLAB_SIZE).2 NVM_SLAB_SIZE = none ∧
      slab_hashtable_remove tableW NVM_SLAB_SIZE = (none, tableW) :=
  slab_hashtable_map_laws tableW NVM_SLAB_SIZE slabW (by decide) (by decide)
    (by decide)

/-! ### Allocator-level lemmas and claims -/

/-- Updating the slab object stored under `key` changes exactly that
entry of the index: other keys look up unchanged. -/
theorem lookup_update (t : SlabHashTable) (key : Nat) (f : NvmSlab → NvmSlab)
    (k : Nat) :
    slab_hashtable_lookup (slab_hashtable_update t key f) k =
      if k = key then (slab_hashtable_lookup t k).map f
      else slab_hashtable_lookup t k := by
  unfold slab_hashtable_lookup slab_hashtable_update
  dsimp only
  rw [getD_set_list]
  by_cases hh : hash_function t.capacity key = hash_function t.capacity k
  · by_cases hlt : hash_function t.capacity key < t.buckets.length
    · rw [if_pos ⟨hh, hlt⟩, List.find?_map]
      have hcomp : ((fun e : SlabHashNode => decide (e.1 = k)) ∘
          (fun e : SlabHashNode =>
            if e.1 = key then (e.1, f e.2) else e)) =
          (fun e : SlabHashNode => decide (e.1 = k)) := by
        funext e
        by_cases he : e.1 = key <;> simp [he]
      rw [hcomp, hh]
      cases hf : (t.buckets.getD (hash_function t.capacity k) []).find?
          (fun e => decide (e.1 = k)) with
      | none => simp
      | some e =>
        have hek : e.1 = k := by simpa using List.find?_some hf
        by_cases hkk : k = key
        · subst hkk
          simp [hek]
        · have : ¬ e.1 = key := by rw [hek]; exact hkk
          simp [this, hkk]
    · rw [if_neg (by simp [hlt])]
      have hgetD : t.buckets.getD (hash_function t.capacity key) [] = [] := by
        rw [List.getD_eq_getElem?_getD, List.getElem?_eq_none (by omega)]
        rfl
      rw [hh] at hgetD
      rw [hgetD]
      by_cases hkk : k = key
      · simp [hkk, ← hh, hgetD]
      · simp [hkk]
  · rw [if_neg (by simp [hh])]
    by_cases hkk : k = key
    · subst hkk
      exact absurd rfl hh
    · rw [if_neg hkk]

/-- Claim C2, amended: With the concurrent (deferred-reclaim)
`nvm_free_impl`, freeing an address whose owning slab is indexed never
removes that slab: the space manager and every per-CPU chain are left
untouched, the slab stays in the index with the block released into it,
and every other index entry is unchanged — even when the slab has
become empty.  (The earlier single-threaded `nvm_free_impl` variant in
the same source does reclaim an emptied slab unless it is the sole
slab of its class chain; see the counterexample.) -/
theorem free_deferred_reclaim (a : NvmAllocator) (nvm_offset : Nat)
    (slab : NvmSlab)
    (hlook : slab_hashtable_lookup a.slab_lookup_table
      (nvm_offset / NVM_SLAB_SIZE * NVM_SLAB_SIZE) = some slab) :
    (nvm_free_impl a nvm_offset).space_manager = a.space_manager ∧
    (∀ cpu sc, (nvm_free_impl a nvm_offset).cpu_heaps cpu sc =
      a.cpu_heaps cpu sc) ∧
    slab_hashtable_lookup (nvm_free_impl a nvm_offset).slab_lookup_table
        (nvm_offset / NVM_SLAB_SIZE * NVM_SLAB_SIZE) =
      some (nvm_slab_free slab
        ((nvm_offset - slab.nvm_base_offset) / slab.block_size)) ∧
    (∀ base, base ≠ nvm_offset / NVM_SLAB_SIZE * NVM_SLAB_SIZE →
      slab_hashtable_lookup (nvm_free_impl a nvm_offset).slab_lookup_table
        base = slab_hashtable_lookup a.slab_lookup_table base) := by
  have hred : nvm_free_impl a nvm_offset =
      { space_manager := a.space_manager
        slab_lookup_table :=
          slab_hashtable_update a.slab_lookup_table
            (nvm_offset / NVM_SLAB_SIZE * NVM_SLAB_SIZE)
            (fun s => nvm_slab_free s
              ((nvm_offset - slab.nvm_base_offset) / slab.block_size))
        cpu_heaps := a.cpu_heaps } := by
    unfold nvm_free_impl
    dsimp only
    rw [hlook]
  refine ⟨by rw [hred], fun cpu sc => by rw [hred], ?_, ?_⟩
  · rw [hred]
    show slab_hashtable_lookup (slab_hashtable_update _ _ _) _ = _
    rw [lookup_update, if_pos rfl, hlook]
    rfl
  · intro base hbase
    rw [hred]
    show slab_hashtable_lookup (slab_hashtable_update _ _ _) base = _
    rw [lookup_update, if_neg hbase]

theorem free_deferred_reclaim_witness :
    (nvm_free_impl allocEx 0).space_manager = allocEx.space_manager ∧
    slab_hashtable_lookup (nvm_free_impl allocEx 0).slab_lookup_table 0 =
      some (nvm_slab_free slabEx ((0 - slabEx.nvm_base_offset) /
        slabEx.block_size)) :=
  ⟨(free_deferred_reclaim allocEx 0 slabEx (by decide)).1,
    (free_deferred_reclaim allocEx 0 slabEx (by decide)).2.2.1⟩

/-- Claim C2, counterexample: The earlier single-threaded variant of
`nvm_free_impl` does remove an emptied slab: on `allocEx` (two indexed
64-byte-class slabs chained on CPU 0, one held block in the slab at
offset 0), freeing that block empties the slab, which is then removed
from the index and its extent returned to the space manager. -/
theorem free_v1_reclaims_counterexample :
    slab_hashtable_lookup allocEx.slab_lookup_table 0 = some slabEx ∧
    slab_hashtable_lookup
      (nvm_free_impl_v1 allocEx 0).slab_lookup_table 0 = none ∧
    (nvm_free_impl_v1 allocEx 0).space_manager =
      [⟨0, NVM_SLAB_SIZE⟩, ⟨2 * NVM_SLAB_SIZE, 8 * NVM_SLAB_SIZE⟩] ∧
    (nvm_free_impl_v1 allocEx 0).space_manager ≠ allocEx.space_manager ∧
    (nvm_free_impl_v1 allocEx 0).cpu_heaps 0 SC_64B = [NVM_SLAB_SIZE] := by
  refine ⟨by decide, by decide, by decide, by decide, by decide⟩

/-- Every real size class (everything but the `SC_COUNT` sentinel) has a
nonzero block size that divides `NVM_SLAB_SIZE` exactly. -/
theorem block_size_valid (sc : SizeClassID) (h : sc ≠ SC_COUNT) :
    get_block_size_from_sc_id sc ≠ 0 ∧
      get_block_size_from_sc_id sc *
        (NVM_SLAB_SIZE / get_block_size_from_sc_id sc) = NVM_SLAB_SIZE := by
  cases sc <;> first
    | exact absurd rfl h
    | exact ⟨by decide, by decide⟩

/-- Success path of `nvm_allocator_restore_allocation_impl` for every
allocator state satisfying the initialization invariants: when the
requested size maps to a real class, the slab base of the address is
not in the index, and the extent can be carved at exactly that base,
the restore succeeds and (1) the free list becomes the carve result,
(2) a fresh slab of the mapped class with exactly the addressed block
marked is inserted under the base, (3) every other index key is
untouched, and (4) the base is pushed onto CPU 0's chain of that class,
all other chains untouched. -/
theorem restore_success_spec (a : NvmAllocator) (off size : Nat)
    (hlen : a.slab_lookup_table.buckets.length = a.slab_lookup_table.capacity)
    (hcap : 0 < a.slab_lookup_table.capacity)
    (hsz : size ≠ 0)
    (hsc : map_size_to_sc_id size ≠ SC_COUNT)
    (hlook : slab_hashtable_lookup a.slab_lookup_table
      (off / NVM_SLAB_SIZE * NVM_SLAB_SIZE) = none)
    (hsucc : (space_manager_alloc_at_offset a.space_manager
      (off / NVM_SLAB_SIZE * NVM_SLAB_SIZE)).1 = true) :
    (nvm_allocator_restore_allocation_impl a off size).2 = true ∧
    (nvm_allocator_restore_allocation_impl a off size).1.space_manager =
      (space_manager_alloc_at_offset a.space_manager
        (off / NVM_SLAB_SIZE * NVM_SLAB_SIZE)).2 ∧
    (FreeListWF a.space_manager → ∀ x,
      coversOffset
        (nvm_allocator_restore_allocation_impl a off size).1.space_manager
        x ↔
      (coversOffset a.space_manager x ∧
        ¬ (off / NVM_SLAB_SIZE * NVM_SLAB_SIZE ≤ x ∧
          x < off / NVM_SLAB_SIZE * NVM_SLAB_SIZE + NVM_SLAB_SIZE))) ∧
    slab_hashtable_lookup
      (nvm_allocator_restore_allocation_impl a off size).1.slab_lookup_table
      (off / NVM_SLAB_SIZE * NVM_SLAB_SIZE) = some
      { nvm_base_offset := off / NVM_SLAB_SIZE * NVM_SLAB_SIZE
        size_type_id := map_size_to_sc_id size
        block_size := get_block_size_from_sc_id (map_size_to_sc_id size)
        total_block_count :=
          NVM_SLAB_SIZE / get_block_size_from_sc_id (map_size_to_sc_id size)
        allocated_block_count := 1
        cache_head := 0
        cache_tail := 0
        cache_count := 0
        free_block_buffer := List.replicate SLAB_CACHE_SIZE 0
        bitmap := {(off - off / NVM_SLAB_SIZE * NVM_SLAB_SIZE) /
          get_block_size_from_sc_id (map_size_to_sc_id size)} } ∧
    (∀ k, k ≠ off / NVM_SLAB_SIZE * NVM_SLAB_SIZE →
      slab_hashtable_lookup
        (nvm_allocator_restore_allocation_impl a off size).1.slab_lookup_table
        k = slab_hashtable_lookup a.slab_lookup_table k) ∧
    (nvm_allocator_restore_allocation_impl a off size).1.cpu_heaps 0
        (map_size_to_sc_id size) =
      off / NVM_SLAB_SIZE * NVM_SLAB_SIZE ::
        a.cpu_heaps 0 (map_size_to_sc_id size) ∧
    (∀ cpu c, ¬ (cpu = 0 ∧ c = map_size_to_sc_id size) →
      (nvm_allocator_restore_allocation_impl a off size).1.cpu_heaps cpu c =
        a.cpu_heaps cpu c) := by
  obtain ⟨hbs0, hbsmul⟩ := block_size_valid (map_size_to_sc_id size) hsc
  have hofflt : off - off / NVM_SLAB_SIZE * NVM_SLAB_SIZE < NVM_SLAB_SIZE := by
    simp only [NVM_SLAB_SIZE]
    omega
  have hidxlt : (off - off / NVM_SLAB_SIZE * NVM_SLAB_SIZE) /
      get_block_size_from_sc_id (map_size_to_sc_id size) <
      NVM_SLAB_SIZE / get_block_size_from_sc_id (map_size_to_sc_id size) := by
    rw [Nat.div_lt_iff_lt_mul (Nat.pos_of_ne_zero hbs0)]
    have hmm : NVM_SLAB_SIZE /
        get_block_size_from_sc_id (map_size_to_sc_id size) *
        get_block_size_from_sc_id (map_size_to_sc_id size) = NVM_SLAB_SIZE := by
      rw [Nat.mul_comm]
      exact hbsmul
    rw [hmm]
    exact hofflt
  have hnotge : ¬ ((off - off / NVM_SLAB_SIZE * NVM_SLAB_SIZE) /
      get_block_size_from_sc_id (map_size_to_sc_id size) ≥
      NVM_SLAB_SIZE / get_block_size_from_sc_id (map_size_to_sc_id size)) :=
    Nat.not_le.mpr hidxlt
  obtain ⟨sm2, halloc2⟩ : ∃ sm2, space_manager_alloc_at_offset
      a.space_manager (off / NVM_SLAB_SIZE * NVM_SLAB_SIZE) = (true, sm2) :=
    ⟨(space_manager_alloc_at_offset a.space_manager
      (off / NVM_SLAB_SIZE * NVM_SLAB_SIZE)).2, Prod.ext hsucc rfl⟩
  have hcreate : nvm_slab_create (map_size_to_sc_id size)
      (off / NVM_SLAB_SIZE * NVM_SLAB_SIZE) = some
      { nvm_base_offset := off / NVM_SLAB_SIZE * NVM_SLAB_SIZE
        size_type_id := map_size_to_sc_id size
        block_size := get_block_size_from_sc_id (map_size_to_sc_id size)
        total_block_count :=
          NVM_SLAB_SIZE / get_block_size_from_sc_id (map_size_to_sc_id size)
        allocated_block_count := 0
        cache_head := 0
        cache_tail := 0
        cache_count := 0
        free_block_buffer := List.replicate SLAB_CACHE_SIZE 0
        bitmap := ∅ } := by
    rw [nvm_slab_create, if_neg hbs0]
  have hmark : nvm_slab_set_bitmap_at_idx
      { nvm_base_offset := off / NVM_SLAB_SIZE * NVM_SLAB_SIZE
        size_type_id := map_size_to_sc_id size
        block_size := get_block_size_from_sc_id (map_size_to_sc_id size)
        total_block_count :=
          NVM_SLAB_SIZE / get_block_size_from_sc_id (map_size_to_sc_id size)
        allocated_block_count := 0
        cache_head := 0
        cache_tail := 0
        cache_count := 0
        free_block_buffer := List.replicate SLAB_CACHE_SIZE 0
        bitmap := ∅ }
      ((off - off / NVM_SLAB_SIZE * NVM_SLAB_SIZE) /
        get_block_size_from_sc_id (map_size_to_sc_id size)) = some
      { nvm_base_offset := off / NVM_SLAB_SIZE * NVM_SLAB_SIZE
        size_type_id := map_size_to_sc_id size
        block_size := get_block_size_from_sc_id (map_size_to_sc_id size)
        total_block_count :=
          NVM_SLAB_SIZE / get_block_size_from_sc_id (map_size_to_sc_id size)
        allocated_block_count := 1
        cache_head := 0
        cache_tail := 0
        cache_count := 0
        free_block_buffer := List.replicate SLAB_CACHE_SIZE 0
        bitmap := {(off - off / NVM_SLAB_SIZE * NVM_SLAB_SIZE) /
          get_block_size_from_sc_id (map_size_to_sc_id size)} } := by
    rw [nvm_slab_set_bitmap_at_idx]
    dsimp only
    rw [if_neg hnotge,
      if_pos (Finset.not_mem_empty
        ((off - off / NVM_SLAB_SIZE * NVM_SLAB_SIZE) /
          get_block_size_from_sc_id (map_size_to_sc_id size)))]
    rfl
  have hfind : (a.slab_lookup_table.buckets.getD
      (hash_function a.slab_lookup_table.capacity
        (off / NVM_SLAB_SIZE * NVM_SLAB_SIZE)) []).find?
      (fun e => decide (e.1 = off / NVM_SLAB_SIZE * NVM_SLAB_SIZE)) =
      none := by
    unfold slab_hashtable_lookup at hlook
    exact Option.map_eq_none'.mp hlook
  have hany : ¬ ((a.slab_lookup_table.buckets.getD
      (hash_function a.slab_lookup_table.capacity
        (off / NVM_SLAB_SIZE * NVM_SLAB_SIZE)) []).any
      (fun e => decide (e.1 = off / NVM_SLAB_SIZE * NVM_SLAB_SIZE)) =
      true) := by
    rw [List.any_eq_true]
    intro ⟨e, he, hek⟩
    exact absurd hek (by simpa using List.find?_eq_none.mp hfind e he)
  have hidx : hash_function a.slab_lookup_table.capacity
      (off / NVM_SLAB_SIZE * NVM_SLAB_SIZE) <
      a.slab_lookup_table.buckets.length := by
    rw [hlen]
    exact Nat.mod_lt _ hcap
  have hins : slab_hashtable_insert a.slab_lookup_table
      (off / NVM_SLAB_SIZE * NVM_SLAB_SIZE)
      { nvm_base_offset := off / NVM_SLAB_SIZE * NVM_SLAB_SIZE
        size_type_id := map_size_to_sc_id size
        block_size := get_block_size_from_sc_id (map_size_to_sc_id size)
        total_block_count :=
          NVM_SLAB_SIZE / get_block_size_from_sc_id (map_size_to_sc_id size)
        allocated_block_count := 0
        cache_head := 0
        cache_tail := 0
        cache_count := 0
        free_block_buffer := List.replicate SLAB_CACHE_SIZE 0
        bitmap := ∅ } = some
      { a.slab_lookup_table with
        buckets := a.slab_lookup_table.buckets.set
          (hash_function a.slab_lookup_table.capacity
            (off / NVM_SLAB_SIZE * NVM_SLAB_SIZE))
          ((off / NVM_SLAB_SIZE * NVM_SLAB_SIZE,
            { nvm_base_offset := off / NVM_SLAB_SIZE * NVM_SLAB_SIZE
              size_type_id := map_size_to_sc_id size
              block_size := get_block_size_from_sc_id (map_size_to_sc_id size)
              total_block_count := NVM_SLAB_SIZE /
                get_block_size_from_sc_id (map_size_to_sc_id size)
              allocated_block_count := 0
              cache_head := 0
              cache_tail := 0
              cache_count := 0
              free_block_buffer := List.replicate SLAB_CACHE_SIZE 0
              bitmap := ∅ }) ::
            a.slab_lookup_table.buckets.getD
              (hash_function a.slab_lookup_table.capacity
                (off / NVM_SLAB_SIZE * NVM_SLAB_SIZE)) [])
        count := a.slab_lookup_table.count + 1 } := by
    rw [slab_hashtable_insert, if_neg hany]
  have hred : nvm_allocator_restore_allocation_impl a off size =
      ({ space_manager := sm2
         slab_lookup_table := slab_hashtable_update
           { a.slab_lookup_table with
             buckets := a.slab_lookup_table.buckets.set
               (hash_function a.slab_lookup_table.capacity
                 (off / NVM_SLAB_SIZE * NVM_SLAB_SIZE))
               ((off / NVM_SLAB_SIZE * NVM_SLAB_SIZE,
                 { nvm_base_offset := off / NVM_SLAB_SIZE * NVM_SLAB_SIZE
                   size_type_id := map_size_to_sc_id size
                   block_size :=
                     get_block_size_from_sc_id (map_size_to_sc_id size)
                   total_block_count := NVM_SLAB_SIZE /
                     get_block_size_from_sc_id (map_size_to_sc_id size)
                   allocated_block_count := 0
                   cache_head := 0
                   cache_tail := 0
                   cache_count := 0
                   free_block_buffer := List.replicate SLAB_CACHE_SIZE 0
                   bitmap := ∅ }) ::
                 a.slab_lookup_table.buckets.getD
                   (hash_function a.slab_lookup_table.capacity
                     (off / NVM_SLAB_SIZE * NVM_SLAB_SIZE)) [])
             count := a.slab_lookup_table.count + 1 }
           (off / NVM_SLAB_SIZE * NVM_SLAB_SIZE)
           (fun _ =>
             { nvm_base_offset := off / NVM_SLAB_SIZE * NVM_SLAB_SIZE
               size_type_id := map_size_to_sc_id size
               block_size :=
                 get_block_size_from_sc_id (map_size_to_sc_id size)
               total_block_count := NVM_SLAB_SIZE /
                 get_block_size_from_sc_id (map_size_to_sc_id size)
               allocated_block_count := 1
               cache_head := 0
               cache_tail := 0
               cache_count := 0
               free_block_buffer := List.replicate SLAB_CACHE_SIZE 0
               bitmap := {(off - off / NVM_SLAB_SIZE * NVM_SLAB_SIZE) /
                 get_block_size_from_sc_id (map_size_to_sc_id size)} })
         cpu_heaps := fun cpu c =>
           if cpu = 0 ∧ c = map_size_to_sc_id size then
             off / NVM_SLAB_SIZE * NVM_SLAB_SIZE ::
               a.cpu_heaps 0 (map_size_to_sc_id size)
           else a.cpu_heaps cpu c }, true) := by
    unfold nvm_allocator_restore_allocation_impl
    rw [if_neg hsz]
    dsimp only
    rw [if_neg hsc, hlook]
    dsimp only
    rw [halloc2]
    dsimp only
    rw [hcreate]
    dsimp only
    rw [hins]
    dsimp only
    rw [hmark]
  have hlookIns : slab_hashtable_lookup
      { a.slab_lookup_table with
        buckets := a.slab_lookup_table.buckets.set
          (hash_function a.slab_lookup_table.capacity
            (off / NVM_SLAB_SIZE * NVM_SLAB_SIZE))
          ((off / NVM_SLAB_SIZE * NVM_SLAB_SIZE,
            { nvm_base_offset := off / NVM_SLAB_SIZE * NVM_SLAB_SIZE
              size_type_id := map_size_to_sc_id size
              block_size := get_block_size_from_sc_id (map_size_to_sc_id size)
              total_block_count := NVM_SLAB_SIZE /
                get_block_size_from_sc_id (map_size_to_sc_id size)
              allocated_block_count := 0
              cache_head := 0
              cache_tail := 0
              cache_count := 0
              free_block_buffer := List.replicate SLAB_CACHE_SIZE 0
              bitmap := ∅ }) ::
            a.slab_lookup_table.buckets.getD
              (hash_function a.slab_lookup_table.capacity
                (off / NVM_SLAB_SIZE * NVM_SLAB_SIZE)) [])
        count := a.slab_lookup_table.count + 1 }
      (off / NVM_SLAB_SIZE * NVM_SLAB_SIZE) = some
      { nvm_base_offset := off / NVM_SLAB_SIZE * NVM_SLAB_SIZE
        size_type_id := map_size_to_sc_id size
        block_size := get_block_size_from_sc_id (map_size_to_sc_id size)
        total_block_count :=
          NVM_SLAB_SIZE / get_block_size_from_sc_id (map_size_to_sc_id size)
        allocated_block_count := 0
        cache_head := 0
        cache_tail := 0
        cache_count := 0
        free_block_buffer := List.replicate SLAB_CACHE_SIZE 0
        bitmap := ∅ } := by
    unfold slab_hashtable_lookup
    dsimp only
    rw [getD_set_list, if_pos ⟨rfl, hidx⟩,
      List.find?_cons_of_pos _ (by simp)]
    rfl
  refine ⟨?_, ?_, ?_, ?_, ?_, ?_, ?_⟩
  · rw [hred]
  · rw [hred, halloc2]
  · intro hwf x
    have hcov := alloc_at_carve_covers a.space_manager
      (off / NVM_SLAB_SIZE * NVM_SLAB_SIZE) hwf hsucc x
    rw [halloc2] at hcov
    rw [hred]
    exact hcov
  · rw [hred]
    dsimp only
    rw [lookup_update, if_pos rfl, hlookIns]
    rfl
  · intro k hk
    rw [hred]
    dsimp only
    rw [lookup_update, if_neg hk]
    unfold slab_hashtable_lookup
    dsimp only
    rw [getD_set_list]
    by_cases hh : hash_function a.slab_lookup_table.capacity
        (off / NVM_SLAB_SIZE * NVM_SLAB_SIZE) =
        hash_function a.slab_lookup_table.capacity k
    · rw [if_pos ⟨hh, hidx⟩,
        List.find?_cons_of_neg _ (by simp [hk.symm]), hh]
    · rw [if_neg (by simp [hh])]
  · rw [hred]
    dsimp only
    simp
  · intro cpu c hcc
    rw [hred]
    dsimp only
    rw [if_neg hcc]

/-- Claim C7: Recovery of an address whose slab base is not indexed
rebuilds the state, for every allocator satisfying the initialization
invariants (bucket array of the table's capacity, positive capacity):
when the requested size maps to a real class and the slab extent can be
carved at the aligned-down base, the restore succeeds, the free list
becomes the carve result — on a well-formed list, exactly the old
coverage minus the extent's bytes — a fresh slab of the mapped class
with exactly the addressed block marked (bitmap a singleton, allocated
count 1) is indexed under the base leaving every other key untouched,
and the base is pushed onto CPU 0's chain of that class, all other
chains untouched.  Concretely, after `init(base, 10·SLAB_SIZE)` and
`restore(base + 2·SLAB_SIZE + 64, 60)`, a 64-byte-class slab exists in
the index at base offset `2·SLAB_SIZE` with bitmap `{1}` (bit 1 set)
and allocated count 1, it heads CPU 0's class-64 chain, and the space
manager's free list is exactly
`[(0, 2·SLAB_SIZE), (3·SLAB_SIZE, 7·SLAB_SIZE)]`.  Moreover, when the
slab base is unindexed and the targeted extent cannot be carved
(`alloc_at` fails), the restore reports failure with the allocator
state exactly as before. -/
theorem restore_rebuilds_state :
    (∀ (a : NvmAllocator) (off size : Nat),
      a.slab_lookup_table.buckets.length = a.slab_lookup_table.capacity →
      0 < a.slab_lookup_table.capacity →
      size ≠ 0 →
      map_size_to_sc_id size ≠ SC_COUNT →
      slab_hashtable_lookup a.slab_lookup_table
        (off / NVM_SLAB_SIZE * NVM_SLAB_SIZE) = none →
      (space_manager_alloc_at_offset a.space_manager
        (off / NVM_SLAB_SIZE * NVM_SLAB_SIZE)).1 = true →
      (nvm_allocator_restore_allocation_impl a off size).2 = true ∧
      (nvm_allocator_restore_allocation_impl a off size).1.space_manager =
        (space_manager_alloc_at_offset a.space_manager
          (off / NVM_SLAB_SIZE * NVM_SLAB_SIZE)).2 ∧
      (FreeListWF a.space_manager → ∀ x,
        coversOffset
          (nvm_allocator_restore_allocation_impl a off size).1.space_manager
          x ↔
        (coversOffset a.space_manager x ∧
          ¬ (off / NVM_SLAB_SIZE * NVM_SLAB_SIZE ≤ x ∧
            x < off / NVM_SLAB_SIZE * NVM_SLAB_SIZE + NVM_SLAB_SIZE))) ∧
      slab_hashtable_lookup
        (nvm_allocator_restore_allocation_impl a off
          size).1.slab_lookup_table
        (off / NVM_SLAB_SIZE * NVM_SLAB_SIZE) = some
        { nvm_base_offset := off / NVM_SLAB_SIZE * NVM_SLAB_SIZE
          size_type_id := map_size_to_sc_id size
          block_size := get_block_size_from_sc_id (map_size_to_sc_id size)
          total_block_count :=
            NVM_SLAB_SIZE / get_block_size_from_sc_id (map_size_to_sc_id size)
          allocated_block_count := 1
          cache_head := 0
          cache_tail := 0
          cache_count := 0
          free_block_buffer := List.replicate SLAB_CACHE_SIZE 0
          bitmap := {(off - off / NVM_SLAB_SIZE * NVM_SLAB_SIZE) /
            get_block_size_from_sc_id (map_size_to_sc_id size)} } ∧
      (∀ k, k ≠ off / NVM_SLAB_SIZE * NVM_SLAB_SIZE →
        slab_hashtable_lookup
          (nvm_allocator_restore_allocation_impl a off
            size).1.slab_lookup_table
          k = slab_hashtable_lookup a.slab_lookup_table k) ∧
      (nvm_allocator_restore_allocation_impl a off size).1.cpu_heaps 0
          (map_size_to_sc_id size) =
        off / NVM_SLAB_SIZE * NVM_SLAB_SIZE ::
          a.cpu_heaps 0 (map_size_to_sc_id size) ∧
      (∀ cpu c, ¬ (cpu = 0 ∧ c = map_size_to_sc_id size) →
        (nvm_allocator_restore_allocation_impl a off size).1.cpu_heaps cpu
          c = a.cpu_heaps cpu c)) ∧
    (restoreScenario.map (fun r => r.2) = some true ∧
      restoreScenario.map (fun r => r.1.space_manager) =
        some [⟨0, 2 * NVM_SLAB_SIZE⟩,
          ⟨3 * NVM_SLAB_SIZE, 7 * NVM_SLAB_SIZE⟩] ∧
      restoreScenario.map (fun r => r.1.cpu_heaps 0 SC_64B) =
        some [2 * NVM_SLAB_SIZE] ∧
      restoreScenario.map (fun r =>
        (slab_hashtable_lookup r.1.slab_lookup_table
          (2 * NVM_SLAB_SIZE)).map (fun s =>
            (s.size_type_id, s.allocated_block_count, s.bitmap))) =
        some (some (SC_64B, 1, {1}))) ∧
    (∀ (a : NvmAllocator) (off size : Nat),
      slab_hashtable_lookup a.slab_lookup_table
        (off / NVM_SLAB_SIZE * NVM_SLAB_SIZE) = none →
      (space_manager_alloc_at_offset a.space_manager
        (off / NVM_SLAB_SIZE * NVM_SLAB_SIZE)).1 = false →
      nvm_allocator_restore_allocation_impl a off size = (a, false)) := by
  refine ⟨?_, ⟨by decide, by decide, by decide, by decide⟩, ?_⟩
  · intro a off size hlen hcap hsz hsc hlook hsucc
    exact restore_success_spec a off size hlen hcap hsz hsc hlook hsucc
  · intro a off size hlook hfail
    unfold nvm_allocator_restore_allocation_impl
    by_cases hsz : size = 0
    · rw [if_pos hsz]
    · rw [if_neg hsz]
      dsimp only
      by_cases hsc : map_size_to_sc_id size = SC_COUNT
      · rw [if_pos hsc]
      · rw [if_neg hsc, hlook]
        have halloc : space_manager_alloc_at_offset a.space_manager
            (off / NVM_SLAB_SIZE * NVM_SLAB_SIZE) =
            (false, a.space_manager) := by
          have h2 := alloc_at_fail_unchanged a.space_manager
            (off / NVM_SLAB_SIZE * NVM_SLAB_SIZE) hfail
          exact Prod.ext hfail h2
        rw [halloc]

theorem restore_rebuilds_state_witness :
    (nvm_allocator_restore_allocation_impl allocEx
      (3 * NVM_SLAB_SIZE + 128) 100).2 = true ∧
    slab_hashtable_lookup
      (nvm_allocator_restore_allocation_impl allocEx
        (3 * NVM_SLAB_SIZE + 128) 100).1.slab_lookup_table
      (3 * NVM_SLAB_SIZE) = some
      { nvm_base_offset := 3 * NVM_SLAB_SIZE
        size_type_id := SC_128B
        block_size := 128
        total_block_count := NVM_SLAB_SIZE / 128
        allocated_block_count := 1
        cache_head := 0
        cache_tail := 0
        cache_count := 0
        free_block_buffer := List.replicate SLAB_CACHE_SIZE 0
        bitmap := {1} } ∧
    (nvm_allocator_restore_allocation_impl allocEx
      (3 * NVM_SLAB_SIZE + 128) 100).1.cpu_heaps 0 SC_128B =
      [3 * NVM_SLAB_SIZE] ∧
    nvm_allocator_restore_allocation_impl allocEx (20 * NVM_SLAB_SIZE) 60 =
      (allocEx, false) :=
  ⟨(restore_rebuilds_state.1 allocEx (3 * NVM_SLAB_SIZE + 128) 100
      (by decide) (by decide) (by decide) (by decide) (by decide)
      (by decide)).1,
    (restore_rebuilds_state.1 allocEx (3 * NVM_SLAB_SIZE + 128) 100
      (by decide) (by decide) (by decide) (by decide) (by decide)
      (by decide)).2.2.2.1,
    (restore_rebuilds_state.1 allocEx (3 * NVM_SLAB_SIZE + 128) 100
      (by decide) (by decide) (by decide) (by decide) (by decide)
      (by decide)).2.2.2.2.2.1,
    restore_rebuilds_state.2.2 allocEx (20 * NVM_SLAB_SIZE) 60 (by decide)
      (by decide)⟩

end NvmMalloc
